import Mathlib

/-!
Verification of the MK interpreter (a small tree-walking language
implementation in Go: lexer, Pratt parser, evaluator) against its
natural-language specification.

The Go source is shallowly embedded below.  Modelling conventions:

* Go strings and byte slices are `List (Fin 256)` (`Bytes`).
* Go `int64` is `Int`; every arithmetic result is wrapped with `wrap64`
  (two's-complement wrap-around), `uint64` values are `Nat` reduced mod 2^64.
* A Go interface value that may be `nil` is an `Option Obj` (`V`); calling a
  method on a `nil` interface is a runtime panic, modelled by `Res.crash`.
* The interpreter's general recursion (closures may recurse) is modelled with
  an explicit fuel parameter; `Res.out` means the fuel was exhausted and is an
  artifact of the embedding, never a behaviour of the Go program.
* Mutable `object.Environment` values are frames in a heap (`St.frames`);
  an environment reference is the frame's index.  Pointer identity of
  heap-allocated `Function`/`Array`/`Hash` objects is modelled with an
  allocation counter (`St.nextId`).
-/

/-- A Go byte. -/
abbrev Byte := Fin 256

/-- A Go string / byte slice, as its list of bytes. -/
abbrev Bytes := List Byte

/-- Encode a Lean string literal (ASCII in this development) as `Bytes`. -/
def str (s : String) : Bytes :=
  s.data.map (fun c => (⟨c.toNat % 256, Nat.mod_lt _ (by norm_num)⟩ : Byte))

/-- Decode bytes to a Lean string (used only to build error-message text). -/
def decode (bs : Bytes) : String :=
  String.mk (bs.map (fun b => Char.ofNat b.val))

/-- Result of running an embedded Go computation.  `out` = artificial fuel
exhaustion, `crash` = Go runtime panic (nil dereference, index out of range,
division by zero), `ok` = the Go function returned. -/
inductive Res (α : Type) where
  | out : Res α
  | crash : Res α
  | ok : α → Res α
deriving Repr

def Res.bind {α β : Type} : Res α → (α → Res β) → Res β
  | .out, _ => .out
  | .crash, _ => .crash
  | .ok a, f => f a

instance : Monad Res where
  pure := Res.ok
  bind := Res.bind

@[simp] theorem Res.bind_ok {α β : Type} (a : α) (f : α → Res β) :
    Res.bind (Res.ok a) f = f a := rfl

@[simp] theorem Res.mbind_ok {α β : Type} (a : α) (f : α → Res β) :
    (Res.ok a : Res α) >>= f = f a := rfl

@[simp] theorem Res.mbind_out {α β : Type} (f : α → Res β) :
    (Res.out : Res α) >>= f = Res.out := rfl

@[simp] theorem Res.mbind_crash {α β : Type} (f : α → Res β) :
    (Res.crash : Res α) >>= f = Res.crash := rfl

@[simp] theorem Res.bind_out {α β : Type} (f : α → Res β) :
    Res.bind (Res.out : Res α) f = Res.out := rfl

@[simp] theorem Res.bind_crash {α β : Type} (f : α → Res β) :
    Res.bind (Res.crash : Res α) f = Res.crash := rfl

/-- Two's-complement wrap of an integer into the `int64` range, as Go
arithmetic on `int64` does on overflow. -/
def wrap64 (v : Int) : Int :=
  ((v + 2 ^ 63) % 2 ^ 64) - 2 ^ 63

/-- Reinterpret an `int64` value as `uint64` (Go conversion `uint64(v)`). -/
def u64ofInt (v : Int) : Nat :=
  (v % 2 ^ 64).toNat

/-! ## Token model (Go package `token`) -/

/-- Token kinds; the Go source represents them as the string constants listed
in `tokTypeStr`. -/
inductive TokType where
  | ILLEGAL | EOF
  | IDENT | INT | STRING
  | ASSIGN | PLUS | MINUS | BANG | ASTERISK | SLASH
  | COMMA | SEMICOLON | COLON
  | GT | LT | LPAREN | RPAREN | LBRACE | RBRACE | LBRACKET | RBRACKET
  | FUNCTION | LET | TRUE | FALSE | IF | ELSE | RETURN
  | EQ | NOT_EQ
deriving DecidableEq, Repr

/-- The string constant each `TokenType` stands for in the Go source (used in
parser error messages). -/
def tokTypeStr : TokType → String
  | .ILLEGAL => "ILLEGAL" | .EOF => "EOF"
  | .IDENT => "IDENT" | .INT => "INT" | .STRING => "STRING"
  | .ASSIGN => "=" | .PLUS => "+" | .MINUS => "-" | .BANG => "!"
  | .ASTERISK => "*" | .SLASH => "/"
  | .COMMA => "," | .SEMICOLON => ";" | .COLON => ":"
  | .GT => ">" | .LT => "<"
  | .LPAREN => "(" | .RPAREN => ")" | .LBRACE => "\x7b" | .RBRACE => "\x7d"
  | .LBRACKET => "[" | .RBRACKET => "]"
  | .FUNCTION => "FUNCTION" | .LET => "LET" | .TRUE => "TRUE"
  | .FALSE => "FALSE" | .IF => "IF" | .ELSE => "ELSE" | .RETURN => "RETURN"
  | .EQ => "==" | .NOT_EQ => "!="

/-- A token: kind plus the source slice that produced it (`token.Token`). -/
structure Token where
  type : TokType
  literal : Bytes
deriving DecidableEq, Repr

/-- `token.LookupIdentifier`: keyword table lookup on a completed identifier
spelling. -/
def lookupIdentifier (s : Bytes) : TokType :=
  if s = str "fn" then .FUNCTION
  else if s = str "let" then .LET
  else if s = str "true" then .TRUE
  else if s = str "false" then .FALSE
  else if s = str "if" then .IF
  else if s = str "else" then .ELSE
  else if s = str "return" then .RETURN
  else .IDENT

/-! ## Lexer (Go package `lexer`) -/

/-- `lexer.Lexer`: current byte index, next index, current byte, input. -/
structure LexState where
  input : Bytes
  position : Nat
  readPosition : Nat
  ch : Byte
deriving DecidableEq, Repr

/-- `Lexer.readChar`: load the byte at `readPosition` (0 past the end) and
advance. -/
def readChar (l : LexState) : LexState :=
  { input := l.input
    position := l.readPosition
    readPosition := l.readPosition + 1
    ch := if l.readPosition ≥ l.input.length then 0 else l.input.getD l.readPosition 0 }

/-- `lexer.New`: start at index 0 with one `readChar` performed. -/
def lexNew (input : Bytes) : LexState :=
  readChar { input := input, position := 0, readPosition := 0, ch := 0 }

/-- `Lexer.peekChar`. -/
def peekChar (l : LexState) : Byte :=
  if l.readPosition ≥ l.input.length then 0 else l.input.getD l.readPosition 0

/-- `isLetter`: ASCII letter or `_` (digits are not letters). -/
def isLetter (ch : Byte) : Bool :=
  (97 ≤ ch.val && ch.val ≤ 122) || (65 ≤ ch.val && ch.val ≤ 90) || ch.val == 95

/-- `isDigit`. -/
def isDigit (ch : Byte) : Bool :=
  48 ≤ ch.val && ch.val ≤ 57

/-- Whitespace bytes skipped by `skipWhitespace`: space, tab, newline, CR. -/
def isWS (ch : Byte) : Bool :=
  ch.val == 32 || ch.val == 9 || ch.val == 10 || ch.val == 13

/-- Iterate a loop-step function `n` times over a base; this `Nat.rec` form
(rather than a recursive `match`) keeps kernel reduction cheap. -/
def natIter {A : Type} (base : A) (step : A → A) (n : Nat) : A :=
  @Nat.rec (fun _ => A) base (fun _ ih => step ih) n

/-- Iterate a step that also sees the level index (`natIterIdx base step n`
is `step (n-1) (... (step 0 base))`). -/
def natIterIdx {A : Type} (base : A) (step : Nat → A → A) (n : Nat) : A :=
  @Nat.rec (fun _ => A) base step n

/-- One iteration of `Lexer.skipWhitespace`. -/
def skipWSGo (recf : LexState → Res LexState) (l : LexState) : Res LexState :=
  if isWS l.ch then recf (readChar l) else .ok l

/-- `Lexer.skipWhitespace` (fueled loop; at end of input `ch = 0`, which is
not whitespace, so no fuel is consumed there). -/
def skipWS (n : Nat) : LexState → Res LexState :=
  natIter (fun l => if isWS l.ch then .out else .ok l) skipWSGo n

/-- One iteration of the `Lexer.readIdentifier` loop. -/
def readIdentGo (recf : LexState → Res LexState) (l : LexState) : Res LexState :=
  if isLetter l.ch then recf (readChar l) else .ok l

/-- `Lexer.readIdentifier` loop: advance while the current byte is a letter;
returns the lexer state at the first non-letter. -/
def readIdentChars (n : Nat) : LexState → Res LexState :=
  natIter (fun l => if isLetter l.ch then .out else .ok l) readIdentGo n

/-- One iteration of the `Lexer.readNumber` loop. -/
def readNumGo (recf : LexState → Res LexState) (l : LexState) : Res LexState :=
  if isDigit l.ch then recf (readChar l) else .ok l

/-- `Lexer.readNumber` loop. -/
def readNumChars (n : Nat) : LexState → Res LexState :=
  natIter (fun l => if isDigit l.ch then .out else .ok l) readNumGo n

/-- One iteration of the `Lexer.readString` loop: `readChar`, stop at `"`. -/
def readStrGo (recf : LexState → Res LexState) (l : LexState) : Res LexState :=
  let l' := readChar l
  if l'.ch = (34 : Byte) then .ok l' else recf l'

/-- `Lexer.readString` loop: repeatedly `readChar` until the current byte is
`"` (byte 34).  Past the end of input `readChar` yields 0 forever, so on an
unterminated string this loop never exits (it only ever returns `.out`). -/
def readStrChars (n : Nat) : LexState → Res LexState :=
  natIter (fun _ => .out) readStrGo n

/-- The Go slice `l.input[a:b]`. -/
def goSlice (inp : Bytes) (a b : Nat) : Bytes :=
  (inp.drop a).take (b - a)

/-- `Lexer.NextToken`, translated case by case from the Go `switch`.
Single-byte tokens fall through to the trailing `readChar`; the identifier
and number paths return early without it. -/
def nextTokenL (n : Nat) (l : LexState) : Res (Token × LexState) :=
  match skipWS n l with
  | .out => .out
  | .crash => .crash
  | .ok l =>
    if l.ch = (61 : Byte) then  -- '='
      if peekChar l = (61 : Byte) then
        let l1 := readChar l
        .ok (⟨.EQ, [61, 61]⟩, readChar l1)
      else .ok (⟨.ASSIGN, [61]⟩, readChar l)
    else if l.ch = (43 : Byte) then .ok (⟨.PLUS, [43]⟩, readChar l)
    else if l.ch = (45 : Byte) then .ok (⟨.MINUS, [45]⟩, readChar l)
    else if l.ch = (33 : Byte) then  -- '!'
      if peekChar l = (61 : Byte) then
        let l1 := readChar l
        .ok (⟨.NOT_EQ, [33, 61]⟩, readChar l1)
      else .ok (⟨.BANG, [33]⟩, readChar l)
    else if l.ch = (47 : Byte) then .ok (⟨.SLASH, [47]⟩, readChar l)
    else if l.ch = (42 : Byte) then .ok (⟨.ASTERISK, [42]⟩, readChar l)
    else if l.ch = (60 : Byte) then .ok (⟨.LT, [60]⟩, readChar l)
    else if l.ch = (62 : Byte) then .ok (⟨.GT, [62]⟩, readChar l)
    else if l.ch = (59 : Byte) then .ok (⟨.SEMICOLON, [59]⟩, readChar l)
    else if l.ch = (44 : Byte) then .ok (⟨.COMMA, [44]⟩, readChar l)
    else if l.ch = (40 : Byte) then .ok (⟨.LPAREN, [40]⟩, readChar l)
    else if l.ch = (41 : Byte) then .ok (⟨.RPAREN, [41]⟩, readChar l)
    else if l.ch = (123 : Byte) then .ok (⟨.LBRACE, [123]⟩, readChar l)
    else if l.ch = (125 : Byte) then .ok (⟨.RBRACE, [125]⟩, readChar l)
    else if l.ch = (91 : Byte) then .ok (⟨.LBRACKET, [91]⟩, readChar l)
    else if l.ch = (93 : Byte) then .ok (⟨.RBRACKET, [93]⟩, readChar l)
    else if l.ch = (34 : Byte) then  -- '"' begins a string literal
      match readStrChars n l with
      | .out => .out
      | .crash => .crash
      | .ok l' =>
        let lit := goSlice l'.input (l.position + 1) l'.position
        .ok (⟨.STRING, lit⟩, readChar l')
    else if l.ch = (58 : Byte) then .ok (⟨.COLON, [58]⟩, readChar l)
    else if l.ch = (0 : Byte) then .ok (⟨.EOF, []⟩, readChar l)
    else if isLetter l.ch then
      match readIdentChars n l with
      | .out => .out
      | .crash => .crash
      | .ok l' =>
        let lit := goSlice l'.input l.position l'.position
        .ok (⟨lookupIdentifier lit, lit⟩, l')
    else if isDigit l.ch then
      match readNumChars n l with
      | .out => .out
      | .crash => .crash
      | .ok l' =>
        let lit := goSlice l'.input l.position l'.position
        .ok (⟨.INT, lit⟩, l')
    else .ok (⟨.ILLEGAL, [l.ch]⟩, readChar l)

/-! ## strconv.ParseInt (as called by `parseIntegerLiteral` with base 0) -/

/-- Value of one digit byte (also hex letters), or none. -/
def digitVal (b : Byte) : Option Nat :=
  if 48 ≤ b.val ∧ b.val ≤ 57 then some (b.val - 48)
  else if 97 ≤ b.val ∧ b.val ≤ 122 then some (b.val - 97 + 10)
  else if 65 ≤ b.val ∧ b.val ≤ 90 then some (b.val - 65 + 10)
  else none

/-- Accumulate digits in the given base; empty digit strings and invalid
digits yield `none`.  (The lexer only ever produces runs of `0`-`9`, so the
underscore-separator cases of Go's `strconv` are unreachable and omitted.) -/
def parseUintDigits (base : Nat) : Bytes → Option Nat
  | [] => none
  | ds => go ds 0
where
  go : Bytes → Nat → Option Nat
    | [], acc => some acc
    | d :: ds, acc =>
      match digitVal d with
      | some v => if v < base then go ds (acc * base + v) else none
      | none => none

/-- `strconv.ParseInt(s, 0, 64)`: optional sign, base detection (`0x`/`0b`/
`0o` prefixes, legacy leading-zero octal, else decimal), digit accumulation,
and the signed 64-bit range check.  Out of range or malformed gives `none`
(Go returns a non-nil error, which the parser turns into a recorded error
message and a nil expression node). -/
def goParseInt (s : Bytes) : Option Int :=
  match s with
  | [] => none
  | _ =>
    let neg := s.headD 0 = (45 : Byte)
    let rest := if s.headD 0 = (45 : Byte) ∨ s.headD 0 = (43 : Byte) then s.tail else s
    let mag : Option Nat :=
      match rest with
      | [] => none
      | c :: cs =>
        if c = (48 : Byte) then
          match cs with
          | [] => some 0
          | d :: ds =>
            if d = (120 : Byte) ∨ d = (88 : Byte) then parseUintDigits 16 ds
            else if d = (98 : Byte) ∨ d = (66 : Byte) then parseUintDigits 2 ds
            else if d = (111 : Byte) ∨ d = (79 : Byte) then parseUintDigits 8 ds
            else parseUintDigits 8 (d :: ds)
        else parseUintDigits 10 rest
    match mag with
    | none => none
    | some nv =>
      if neg then
        if nv > 2 ^ 63 then none else some (-(nv : Int))
      else
        if nv ≥ 2 ^ 63 then none else some (nv : Int)

/-! ## AST (Go package `ast`; the package itself is not in the repository
snapshot, so the node shapes are reconstructed from every field access the
parser and evaluator perform, which determines them completely, together with
spec section 3.2).  A sub-node field that a parselet can leave as a Go nil
interface is an `Option`; `BlockStatement` content is its statement list. -/

mutual
inductive Expr where
  | ident (name : Bytes)
  | intLit (v : Int)
  | boolLit (b : Bool)
  | strLit (s : Bytes)
  | prefixE (op : Bytes) (right : Option Expr)
  | infixE (op : Bytes) (left : Option Expr) (right : Option Expr)
  | ifE (cond : Option Expr) (cons : List Stmt) (alt : Option (List Stmt))
  | funcLit (params : Option (List Bytes)) (body : List Stmt)
  | callE (fn : Option Expr) (args : Option (List (Option Expr)))
  | arrayLit (elems : Option (List (Option Expr)))
  | indexE (left : Option Expr) (idx : Option Expr)
  | hashLit (pairs : List (Option Expr × Option Expr))
deriving Repr

inductive Stmt where
  | letS (name : Bytes) (value : Option Expr)
  | retS (value : Option Expr)
  | exprS (e : Option Expr)
deriving Repr
end

/-- An evaluator dispatch target (`ast.Node`). -/
inductive Node where
  | prog (stmts : List Stmt)
  | stmtN (s : Stmt)
  | blockN (stmts : List Stmt)
  | exprN (e : Expr)
deriving Repr

/-! ## Parser (Go package `parser`) -/

/-- `parser.Parser`: lexer, accumulated errors, current and peek tokens.
The prefix/infix parselet registries are fixed at construction; they are
modelled by the dispatch matches in `parseExpressionF` / `parseInfixDispatchF`
and the `infixRegistered` predicate. -/
structure PState where
  l : LexState
  errors : List String
  cur : Token
  peek : Token
deriving Repr

/-- `Parser.nextToken` (the `Nat` is lexer fuel). -/
def nextTokenP (n : Nat) (p : PState) : Res PState := do
  let (t, l') ← nextTokenL n p.l
  .ok { l := l', errors := p.errors, cur := p.peek, peek := t }

/-- Append a parser error message. -/
def addError (p : PState) (msg : String) : PState :=
  { p with errors := p.errors ++ [msg] }

/-- `Parser.expectPeek`: advance on a match, else record `peekError`. -/
def expectPeekF (n : Nat) (t : TokType) (p : PState) : Res (Bool × PState) :=
  if p.peek.type = t then do
    let p' ← nextTokenP n p
    .ok (true, p')
  else
    .ok (false, addError p ("expected next token to be " ++ tokTypeStr t ++
      ", got " ++ tokTypeStr p.peek.type ++ " instead"))

/-- The `precedences` table; unlisted kinds get `LOWEST` (= 1).  Levels:
LOWEST 1, EQUALS 2, LESSGREATER 3, SUM 4, PRODUCT 5, PREFIX 6, CALL 7,
INDEX 8. -/
def precOf : TokType → Nat
  | .EQ => 2 | .NOT_EQ => 2
  | .LT => 3 | .GT => 3
  | .PLUS => 4 | .MINUS => 4
  | .SLASH => 5 | .ASTERISK => 5
  | .LPAREN => 7
  | .LBRACKET => 8
  | _ => 1

/-- `Parser.peekPrecedence`. -/
def peekPrecedence (p : PState) : Nat := precOf p.peek.type

/-- `Parser.curPrecedence`. -/
def curPrecedence (p : PState) : Nat := precOf p.cur.type

/-- Token kinds with a registered infix parselet. -/
def infixRegistered : TokType → Bool
  | .PLUS | .MINUS | .SLASH | .ASTERISK | .EQ | .NOT_EQ | .LT | .GT
  | .LPAREN | .LBRACKET => true
  | _ => false

/-- The parser functions of one fuel level, as a bundle: every recursive or
mutually recursive call in the Go source goes through the bundle of the next
lower fuel level, so the whole parser is a simple iteration of `parseStep`
(cheap to reduce).  Field-by-field these are the Go methods of `Parser`. -/
structure ParseRec where
  progLoop : PState → List Stmt → Res (List Stmt × PState)
  stmt : PState → Res (Option Stmt × PState)
  letStmt : PState → Res (Option Stmt × PState)
  retStmt : PState → Res (Option Stmt × PState)
  exprStmt : PState → Res (Option Stmt × PState)
  skipSemi : PState → Res PState
  expr : Nat → PState → Res (Option Expr × PState)
  exprLoop : Nat → Option Expr → PState → Res (Option Expr × PState)
  infixDispatch : Option Expr → PState → Res (Option Expr × PState)
  infixExpr : Option Expr → PState → Res (Option Expr × PState)
  prefixExpr : PState → Res (Option Expr × PState)
  grouped : PState → Res (Option Expr × PState)
  ifExpr : PState → Res (Option Expr × PState)
  blockStart : PState → Res (List Stmt × PState)
  blockLoop : PState → List Stmt → Res (List Stmt × PState)
  fnLit : PState → Res (Option Expr × PState)
  fnParams : PState → Res (Option (List Bytes) × PState)
  fnParamLoop : PState → List Bytes → Res (List Bytes × PState)
  callExpr : Option Expr → PState → Res (Option Expr × PState)
  exprList : TokType → PState → Res (Option (List (Option Expr)) × PState)
  exprListLoop : PState → List (Option Expr) → Res (List (Option Expr) × PState)
  indexExpr : Option Expr → PState → Res (Option Expr × PState)
  hashLit : PState → Res (Option Expr × PState)
  hashLoop : PState → List (Option Expr × Option Expr) →
    Res (Option (List (Option Expr × Option Expr)) × PState)

/-- The fuel-exhausted bundle. -/
def outParseRec : ParseRec where
  progLoop := fun _ _ => .out
  stmt := fun _ => .out
  letStmt := fun _ => .out
  retStmt := fun _ => .out
  exprStmt := fun _ => .out
  skipSemi := fun _ => .out
  expr := fun _ _ => .out
  exprLoop := fun _ _ _ => .out
  infixDispatch := fun _ _ => .out
  infixExpr := fun _ _ => .out
  prefixExpr := fun _ => .out
  grouped := fun _ => .out
  ifExpr := fun _ => .out
  blockStart := fun _ => .out
  blockLoop := fun _ _ => .out
  fnLit := fun _ => .out
  fnParams := fun _ => .out
  fnParamLoop := fun _ _ => .out
  callExpr := fun _ _ => .out
  exprList := fun _ _ => .out
  exprListLoop := fun _ _ => .out
  indexExpr := fun _ _ => .out
  hashLit := fun _ => .out
  hashLoop := fun _ _ => .out

/-- The `ParseProgram` loop: parse statements until the current token is
`EOF`, keeping the non-nil ones. -/
def parseProgramLoopB (n : Nat) (rec : ParseRec) (p : PState) (acc : List Stmt) :
    Res (List Stmt × PState) :=
  if p.cur.type = .EOF then .ok (acc, p)
  else do
    let (s?, p) ← rec.stmt p
    let acc' := match s? with
      | some s => acc ++ [s]
      | none => acc
    let p ← nextTokenP n p
    rec.progLoop p acc'

/-- `Parser.parseStatement`. -/
def parseStatementB (rec : ParseRec) (p : PState) : Res (Option Stmt × PState) :=
  match p.cur.type with
  | .LET => rec.letStmt p
  | .RETURN => rec.retStmt p
  | _ => rec.exprStmt p

/-- `Parser.parseLetStatement`.  NOTE the trailing semicolon skip: the Go
loop `for !p.curTokenIs(token.SEMICOLON) { p.nextToken() }` has no EOF
check. -/
def parseLetStatementB (n : Nat) (rec : ParseRec) (p : PState) :
    Res (Option Stmt × PState) := do
  let (ok1, p) ← expectPeekF n .IDENT p
  if ok1 then
    let name := p.cur.literal
    let (ok2, p) ← expectPeekF n .ASSIGN p
    if ok2 then
      let p ← nextTokenP n p
      let (val, p) ← rec.expr 1 p
      let p ← rec.skipSemi p
      .ok (some (.letS name val), p)
    else .ok (none, p)
  else .ok (none, p)

/-- `Parser.parseReturnStatement` (same unguarded semicolon skip). -/
def parseReturnStatementB (n : Nat) (rec : ParseRec) (p : PState) :
    Res (Option Stmt × PState) := do
  let p ← nextTokenP n p
  let (val, p) ← rec.expr 1 p
  let p ← rec.skipSemi p
  .ok (some (.retS val), p)

/-- The `for !p.curTokenIs(token.SEMICOLON)` loop shared by let/return. -/
def skipToSemiB (n : Nat) (rec : ParseRec) (p : PState) : Res PState :=
  if p.cur.type = .SEMICOLON then .ok p
  else do
    let p' ← nextTokenP n p
    rec.skipSemi p'

/-- `Parser.parseExpressionStatement`: optional trailing semicolon. -/
def parseExpressionStatementB (n : Nat) (rec : ParseRec) (p : PState) :
    Res (Option Stmt × PState) := do
  let (e, p) ← rec.expr 1 p
  if p.peek.type = .SEMICOLON then
    let p ← nextTokenP n p
    .ok (some (.exprS e), p)
  else .ok (some (.exprS e), p)

/-- `Parser.parseExpression`: look up the prefix parselet for the current
token (recording "no prefix parse function" and yielding nil when there is
none), then run the infix loop.  The prefix parselets for identifier,
integer, boolean and string literals are inlined (they build a node from the
current token without advancing). -/
def parseExpressionB (rec : ParseRec) (prec : Nat) (p : PState) :
    Res (Option Expr × PState) :=
  match p.cur.type with
  | .IDENT => rec.exprLoop prec (some (.ident p.cur.literal)) p
  | .INT =>
    match goParseInt p.cur.literal with
    | some v => rec.exprLoop prec (some (.intLit v)) p
    | none =>
      rec.exprLoop prec none
        (addError p ("could not parse \"" ++ decode p.cur.literal ++ "\" as integer"))
  | .TRUE => rec.exprLoop prec (some (.boolLit true)) p
  | .FALSE => rec.exprLoop prec (some (.boolLit false)) p
  | .STRING => rec.exprLoop prec (some (.strLit p.cur.literal)) p
  | .BANG => do
    let (e, p) ← rec.prefixExpr p
    rec.exprLoop prec e p
  | .MINUS => do
    let (e, p) ← rec.prefixExpr p
    rec.exprLoop prec e p
  | .LPAREN => do
    let (e, p) ← rec.grouped p
    rec.exprLoop prec e p
  | .IF => do
    let (e, p) ← rec.ifExpr p
    rec.exprLoop prec e p
  | .FUNCTION => do
    let (e, p) ← rec.fnLit p
    rec.exprLoop prec e p
  | .LBRACKET => do
    let (elems, p) ← rec.exprList .RBRACKET p
    rec.exprLoop prec (some (.arrayLit elems)) p
  | .LBRACE => do
    let (e, p) ← rec.hashLit p
    rec.exprLoop prec e p
  | t =>
    .ok (none, addError p ("no prefix parse function for " ++ tokTypeStr t ++ " found"))

/-- The `parseExpression` infix loop: while the peek token is not `;` and
the argument precedence is below the peek precedence, advance and apply the
peek token's infix parselet (stop if none is registered). -/
def parseExprLoopB (n : Nat) (rec : ParseRec) (prec : Nat) (left : Option Expr)
    (p : PState) : Res (Option Expr × PState) :=
  if p.peek.type ≠ .SEMICOLON ∧ prec < peekPrecedence p then
    if infixRegistered p.peek.type then do
      let p ← nextTokenP n p
      let (left', p') ← rec.infixDispatch left p
      rec.exprLoop prec left' p'
    else .ok (left, p)
  else .ok (left, p)

/-- The infix parselet registry, dispatched on the (already advanced)
current token. -/
def parseInfixDispatchB (rec : ParseRec) (left : Option Expr) (p : PState) :
    Res (Option Expr × PState) :=
  match p.cur.type with
  | .LPAREN => rec.callExpr left p
  | .LBRACKET => rec.indexExpr left p
  | .PLUS | .MINUS | .SLASH | .ASTERISK | .EQ | .NOT_EQ | .LT | .GT =>
    rec.infixExpr left p
  | _ => .ok (left, p)

/-- `Parser.parseInfixExpression`.  The special `+` rule from the source:
when the operator literal is `"+"` the right operand is parsed with the
operator's precedence MINUS ONE; every other operator uses its own
precedence. -/
def parseInfixExpressionB (n : Nat) (rec : ParseRec) (left : Option Expr)
    (p : PState) : Res (Option Expr × PState) := do
  let op := p.cur.literal
  let prec := curPrecedence p
  let p ← nextTokenP n p
  let (right, p) ←
    if op = str "+" then rec.expr (prec - 1) p
    else rec.expr prec p
  .ok (some (.infixE op left right), p)

/-- `Parser.parsePrefixExpression`: operator from the current token, operand
parsed at `PREFIX` precedence (6). -/
def parsePrefixExpressionB (n : Nat) (rec : ParseRec) (p : PState) :
    Res (Option Expr × PState) := do
  let op := p.cur.literal
  let p ← nextTokenP n p
  let (r, p) ← rec.expr 6 p
  .ok (some (.prefixE op r), p)

/-- `Parser.parseGroupedExpression`. -/
def parseGroupedExpressionB (n : Nat) (rec : ParseRec) (p : PState) :
    Res (Option Expr × PState) := do
  let p ← nextTokenP n p
  let (e, p) ← rec.expr 1 p
  let (okr, p) ← expectPeekF n .RPAREN p
  if okr then .ok (e, p) else .ok (none, p)

/-- `Parser.parseIfExpression`. -/
def parseIfExpressionB (n : Nat) (rec : ParseRec) (p : PState) :
    Res (Option Expr × PState) := do
  let (ok1, p) ← expectPeekF n .LPAREN p
  if ok1 then
    let p ← nextTokenP n p
    let (cond, p) ← rec.expr 1 p
    let (ok2, p) ← expectPeekF n .RPAREN p
    if ok2 then
      let (ok3, p) ← expectPeekF n .LBRACE p
      if ok3 then
        let (cons, p) ← rec.blockStart p
        if p.peek.type = .ELSE then
          let p ← nextTokenP n p
          let (ok4, p) ← expectPeekF n .LBRACE p
          if ok4 then
            let (alt, p) ← rec.blockStart p
            .ok (some (.ifE cond cons (some alt)), p)
          else .ok (none, p)
        else .ok (some (.ifE cond cons none), p)
      else .ok (none, p)
    else .ok (none, p)
  else .ok (none, p)

/-- `Parser.parseBlockStatement` (advance past `{`, then loop). -/
def parseBlockStartB (n : Nat) (rec : ParseRec) (p : PState) :
    Res (List Stmt × PState) := do
  let p ← nextTokenP n p
  rec.blockLoop p []

/-- The block loop: parse statements until `}`.  As in the source there is
no EOF check, so an unterminated block never exits the loop. -/
def parseBlockLoopB (n : Nat) (rec : ParseRec) (p : PState) (acc : List Stmt) :
    Res (List Stmt × PState) :=
  if p.cur.type = .RBRACE then .ok (acc, p)
  else do
    let (s?, p) ← rec.stmt p
    let acc' := match s? with
      | some s => acc ++ [s]
      | none => acc
    let p ← nextTokenP n p
    rec.blockLoop p acc'

/-- `Parser.parseFunctionLiteral`. -/
def parseFunctionLiteralB (n : Nat) (rec : ParseRec) (p : PState) :
    Res (Option Expr × PState) := do
  let (ok1, p) ← expectPeekF n .LPAREN p
  if ok1 then
    let (params, p) ← rec.fnParams p
    let (ok2, p) ← expectPeekF n .LBRACE p
    if ok2 then
      let (body, p) ← rec.blockStart p
      .ok (some (.funcLit params body), p)
    else .ok (none, p)
  else .ok (none, p)

/-- `Parser.parseFunctionParameters`: comma-separated identifier literals;
`none` models the nil slice returned when the closing `)` is missing. -/
def parseFunctionParametersB (n : Nat) (rec : ParseRec) (p : PState) :
    Res (Option (List Bytes) × PState) :=
  if p.peek.type = .RPAREN then do
    let p ← nextTokenP n p
    .ok (some [], p)
  else do
    let p ← nextTokenP n p
    let (ids, p) ← rec.fnParamLoop p [p.cur.literal]
    let (okr, p) ← expectPeekF n .RPAREN p
    if okr then .ok (some ids, p) else .ok (none, p)

/-- The parameter-list comma loop. -/
def parseFnParamLoopB (n : Nat) (rec : ParseRec) (p : PState) (acc : List Bytes) :
    Res (List Bytes × PState) :=
  if p.peek.type = .COMMA then do
    let p ← nextTokenP n p
    let p ← nextTokenP n p
    rec.fnParamLoop p (acc ++ [p.cur.literal])
  else .ok (acc, p)

/-- `Parser.parseCallExpression` (the infix parselet for `(`). -/
def parseCallExpressionB (rec : ParseRec) (left : Option Expr) (p : PState) :
    Res (Option Expr × PState) := do
  let (args, p) ← rec.exprList .RPAREN p
  .ok (some (.callE left args), p)

/-- `Parser.parseExpressionList`: comma-separated expressions up to the given
end token; `none` models the nil slice returned on a missing end token. -/
def parseExpressionListB (n : Nat) (rec : ParseRec) (e : TokType) (p : PState) :
    Res (Option (List (Option Expr)) × PState) :=
  if p.peek.type = e then do
    let p ← nextTokenP n p
    .ok (some [], p)
  else do
    let p ← nextTokenP n p
    let (x, p) ← rec.expr 1 p
    let (xs, p) ← rec.exprListLoop p [x]
    let (okE, p) ← expectPeekF n e p
    if okE then .ok (some xs, p) else .ok (none, p)

/-- The expression-list comma loop. -/
def parseExprListLoopB (n : Nat) (rec : ParseRec) (p : PState)
    (acc : List (Option Expr)) : Res (List (Option Expr) × PState) :=
  if p.peek.type = .COMMA then do
    let p ← nextTokenP n p
    let p ← nextTokenP n p
    let (x, p) ← rec.expr 1 p
    rec.exprListLoop p (acc ++ [x])
  else .ok (acc, p)

/-- `Parser.parseIndexExpression` (the infix parselet for `[`). -/
def parseIndexExpressionB (n : Nat) (rec : ParseRec) (left : Option Expr)
    (p : PState) : Res (Option Expr × PState) := do
  let p ← nextTokenP n p
  let (idx, p) ← rec.expr 1 p
  let (okr, p) ← expectPeekF n .RBRACKET p
  if okr then .ok (some (.indexE left idx), p) else .ok (none, p)

/-- `Parser.parseHashLiteral`: delegate to the pair loop, then expect `}`. -/
def parseHashLiteralB (n : Nat) (rec : ParseRec) (p : PState) :
    Res (Option Expr × PState) := do
  let (pairs?, p) ← rec.hashLoop p []
  match pairs? with
  | none => .ok (none, p)
  | some pairs =>
    let (okr, p) ← expectPeekF n .RBRACE p
    if okr then .ok (some (.hashLit pairs), p) else .ok (none, p)

/-- The hash-pair loop (`for !p.peekTokenIs(token.RBRACE)`).  The Go source
stores the pairs in `map[ast.Expression]ast.Expression`; distinct parse
results are distinct pointers, so every parsed pair is present.  The list
here records them in source order, but the Go map does NOT retain any order:
iteration order over the map is unspecified (randomized by the runtime). -/
def parseHashLoopB (n : Nat) (rec : ParseRec) (p : PState)
    (acc : List (Option Expr × Option Expr)) :
    Res (Option (List (Option Expr × Option Expr)) × PState) :=
  if p.peek.type = .RBRACE then .ok (some acc, p)
  else do
    let p ← nextTokenP n p
    let (k, p) ← rec.expr 1 p
    let (okc, p) ← expectPeekF n .COLON p
    if okc then
      let p ← nextTokenP n p
      let (v, p) ← rec.expr 1 p
      if p.peek.type = .RBRACE then rec.hashLoop p (acc ++ [(k, v)])
      else do
        let (okcm, p) ← expectPeekF n .COMMA p
        if okcm then rec.hashLoop p (acc ++ [(k, v)]) else .ok (none, p)
    else .ok (none, p)

/-- One fuel level of the parser: each field is the corresponding Go method
with every (mutually) recursive call and every lexer invocation taken at
fuel `n`. -/
def parseStep (n : Nat) (rec : ParseRec) : ParseRec where
  progLoop := parseProgramLoopB n rec
  stmt := parseStatementB rec
  letStmt := parseLetStatementB n rec
  retStmt := parseReturnStatementB n rec
  exprStmt := parseExpressionStatementB n rec
  skipSemi := skipToSemiB n rec
  expr := parseExpressionB rec
  exprLoop := parseExprLoopB n rec
  infixDispatch := parseInfixDispatchB rec
  infixExpr := parseInfixExpressionB n rec
  prefixExpr := parsePrefixExpressionB n rec
  grouped := parseGroupedExpressionB n rec
  ifExpr := parseIfExpressionB n rec
  blockStart := parseBlockStartB n rec
  blockLoop := parseBlockLoopB n rec
  fnLit := parseFunctionLiteralB n rec
  fnParams := parseFunctionParametersB n rec
  fnParamLoop := parseFnParamLoopB n rec
  callExpr := parseCallExpressionB rec
  exprList := parseExpressionListB n rec
  exprListLoop := parseExprListLoopB n rec
  indexExpr := parseIndexExpressionB n rec
  hashLit := parseHashLiteralB n rec
  hashLoop := parseHashLoopB n rec

/-- The parser bundle at a given fuel (level `n + 1` runs its inner calls at
level `n`, so fuel decreases along every call path exactly as in the earlier
recursive formulation). -/
def parseRecAt : Nat → ParseRec :=
  natIterIdx outParseRec parseStep

/-- `parse_program` over statements: wrapper naming the bundle field. -/
def parseProgramLoopF (n : Nat) (p : PState) (acc : List Stmt) :
    Res (List Stmt × PState) :=
  (parseRecAt n).progLoop p acc

/-- Wrapper: `parseStatement` at a fuel. -/
def parseStatementF (n : Nat) (p : PState) : Res (Option Stmt × PState) :=
  (parseRecAt n).stmt p

/-- Wrapper: `parseLetStatement` at a fuel. -/
def parseLetStatementF (n : Nat) (p : PState) : Res (Option Stmt × PState) :=
  (parseRecAt n).letStmt p

/-- Wrapper: `parseReturnStatement` at a fuel. -/
def parseReturnStatementF (n : Nat) (p : PState) : Res (Option Stmt × PState) :=
  (parseRecAt n).retStmt p

/-- Wrapper: the semicolon skip loop at a fuel. -/
def skipToSemiF (n : Nat) (p : PState) : Res PState :=
  (parseRecAt n).skipSemi p

/-- Wrapper: `parseExpression` at a fuel. -/
def parseExpressionF (n : Nat) (prec : Nat) (p : PState) :
    Res (Option Expr × PState) :=
  (parseRecAt n).expr prec p

/-- Wrapper: `parseInfixExpression` at a fuel. -/
def parseInfixExpressionF (n : Nat) (left : Option Expr) (p : PState) :
    Res (Option Expr × PState) :=
  (parseRecAt n).infixExpr left p

/-- `parser.New`: construct the parser and perform the two initial
`nextToken` calls (net effect: `cur`/`peek` are the first two tokens). -/
def parserNewF (n : Nat) (input : Bytes) : Res PState := do
  let (t1, l1) ← nextTokenL n (lexNew input)
  let (t2, l2) ← nextTokenL n l1
  .ok { l := l2, errors := [], cur := t1, peek := t2 }

/-- The front end: construct a lexer and parser for the input and run
`ParseProgram`. -/
def frontEndF (n : Nat) (input : Bytes) : Res (List Stmt × PState) := do
  let p ← parserNewF n input
  parseProgramLoopF n p []

/-! ## Runtime values (Go package `object`) -/

/-- The `ObjectType` constants (Go represents them as strings, see
`tagStr`). -/
inductive TypeTag where
  | nullT | integerT | booleanT | returnT | errorT
  | functionT | stringT | builtinT | arrayT | hashT
deriving DecidableEq, Repr

/-- The string constant behind each `ObjectType`. -/
def tagStr : TypeTag → String
  | .nullT => "NULL" | .integerT => "INTEGER" | .booleanT => "BOOLEAN"
  | .returnT => "RETURN_VALUE" | .errorT => "ERROR" | .functionT => "FUNCTION"
  | .stringT => "STRING" | .builtinT => "BUILTIN" | .arrayT => "ARRAY"
  | .hashT => "HASH"

/-- `object.HashKey`: a type tag plus a 64-bit value (kept as a `Nat`
already reduced mod 2^64 by its producers). -/
structure HashKey where
  type : TypeTag
  value : Nat
deriving DecidableEq, Repr

/-- Runtime objects.  `Function`, `Array` and `Hash` objects are heap
allocations whose Go pointer identity matters for the `==`/`!=` fallback, so
they carry an allocation id drawn from `St.nextId`.  `Boolean` and `Null`
need no id: the evaluator only ever produces the package-level singletons
`TRUE`/`FALSE`/`NULL`, so identity coincides with the carried value.
`Hash.Pairs` (a Go map) is an association list keyed by `HashKey` in which
insertion replaces any entry with the same key.  Fields of interface type
that can hold Go `nil` are `Option Obj`. -/
inductive Obj where
  | nullO
  | intO (v : Int)
  | boolO (b : Bool)
  | stringO (s : Bytes)
  | returnO (v : Option Obj)
  | errorO (msg : String)
  | funcO (id : Nat) (params : Option (List Bytes)) (body : List Stmt) (env : Nat)
  | builtinO (name : Bytes)
  | arrayO (id : Nat) (elems : List (Option Obj))
  | hashO (id : Nat) (pairs : List (HashKey × Obj × Option Obj))
deriving Repr

/-- A Go `object.Object` interface value: `none` is the nil interface. -/
abbrev V := Option Obj

/-- `Object.Type()` of each variant. -/
def typeOf : Obj → TypeTag
  | .nullO => .nullT
  | .intO _ => .integerT
  | .boolO _ => .booleanT
  | .stringO _ => .stringT
  | .returnO _ => .returnT
  | .errorO _ => .errorT
  | .funcO _ _ _ _ => .functionT
  | .builtinO _ => .builtinT
  | .arrayO _ _ => .arrayT
  | .hashO _ _ => .hashT

/-- One step of 64-bit FNV-1a: xor in the byte, multiply by the FNV prime,
reduce mod 2^64 (as `hash/fnv`'s `sum64a` does by operating on `uint64`). -/
def fnv1aStep (h : Nat) (b : Byte) : Nat :=
  ((h ^^^ b.val) * 1099511628211) % 2 ^ 64

/-- 64-bit FNV-1a over a byte string, offset basis 14695981039346656037. -/
def fnv1a (s : Bytes) : Nat :=
  s.foldl fnv1aStep 14695981039346656037

/-- The `HashKey()` methods: `Integer` reinterprets its 64-bit value,
`Boolean` hashes as 1/0, `String` hashes by FNV-1a over its bytes; each tags
the key with its own `Type()`.  `none` for the non-`Hashable` variants. -/
def hashKeyOf : Obj → Option HashKey
  | .intO v => some ⟨.integerT, u64ofInt v⟩
  | .boolO b => some ⟨.booleanT, if b then 1 else 0⟩
  | .stringO s => some ⟨.stringT, fnv1a s⟩
  | _ => none

/-- Go interface equality `left == right` between two non-nil objects, as
reachable from `evalInfixExpression`'s `==`/`!=` fallback.  Operands of
different dynamic types are unequal.  `Null` and `Boolean` compare by value
because the evaluator only produces the canonical singletons; the
heap-allocated variants compare by allocation id (pointer identity).
The `Integer`/`Integer` and `String`/`String` lines are unreachable (those
pairs are consumed by the earlier cases of `evalInfixExpression`), and
`ReturnValue`/`Error` operands carry no id, so distinct allocations — the
only pairs the evaluator can produce — compare unequal. -/
def goObjEq : Obj → Obj → Bool
  | .nullO, .nullO => true
  | .boolO a, .boolO b => a == b
  | .funcO i _ _ _, .funcO j _ _ _ => i == j
  | .arrayO i _, .arrayO j _ => i == j
  | .hashO i _, .hashO j _ => i == j
  | .builtinO a, .builtinO b => a == b
  | _, _ => false

/-- Go interface equality with possible nil operands (nil == nil is true,
nil never equals a non-nil interface; no method call, so no panic). -/
def goIfaceEq : V → V → Bool
  | none, none => true
  | some a, some b => goObjEq a b
  | _, _ => false

/-! ## Environments (Go `object.Environment`), as a heap of frames -/

/-- One `Environment`: its `store` map and optional `outer` reference. -/
structure Frame where
  store : List (Bytes × V)
  outer : Option Nat
deriving Repr

/-- Interpreter-wide mutable state: the environment heap, the allocation
counter for pointer identity, and an oracle for the wall-clock string the
`now` builtin returns (the clock is outside the program's control). -/
structure St where
  frames : List Frame
  nextId : Nat
  clock : Bytes
deriving Repr

/-- Go map read `e.store[name]`: `some v` when present (`v` itself may be a
stored nil interface). -/
def lookupStore (name : Bytes) : List (Bytes × V) → Option V
  | [] => none
  | (k, v) :: rest => if k = name then some v else lookupStore name rest

/-- Go map write `e.store[name] = val`. -/
def storeSet (name : Bytes) (v : V) : List (Bytes × V) → List (Bytes × V)
  | [] => [(name, v)]
  | (k, w) :: rest =>
    if k = name then (k, v) :: rest else (k, w) :: storeSet name v rest

/-- Replace the element at an index. -/
def updateAt {α : Type} (i : Nat) (f : α → α) : List α → List α
  | [] => []
  | x :: xs =>
    match i with
    | 0 => f x :: xs
    | j + 1 => x :: updateAt j f xs

/-- `object.NewEnvironment`: allocate a fresh frame with no outer. -/
def newEnvironment (st : St) : Nat × St :=
  (st.frames.length, { st with frames := st.frames ++ [⟨[], none⟩] })

/-- `object.NewEnclosedEnvironment`. -/
def newEnclosedEnvironment (outer : Nat) (st : St) : Nat × St :=
  (st.frames.length, { st with frames := st.frames ++ [⟨[], some outer⟩] })

/-- `Environment.Get` with explicit recursion depth: search the own store,
then the outer chain.  Frames only ever reference earlier frames, so a depth
of `st.frames.length + 1` (used by `envGet`) never runs out on states the
evaluator builds; the `0` case is unreachable there. -/
def envGetAux : Nat → St → Nat → Bytes → Option V
  | 0, _, _, _ => none
  | k + 1, st, ref, name =>
    match st.frames.get? ref with
    | none => none
    | some fr =>
      match lookupStore name fr.store with
      | some v => some v
      | none =>
        match fr.outer with
        | some o => envGetAux k st o name
        | none => none

/-- `Environment.Get`. -/
def envGet (st : St) (ref : Nat) (name : Bytes) : Option V :=
  envGetAux (st.frames.length + 1) st ref name

/-- `Environment.Set` (writes only to the frame itself). -/
def envSet (st : St) (ref : Nat) (name : Bytes) (v : V) : St :=
  { st with
    frames := updateAt ref (fun fr => { fr with store := storeSet name v fr.store }) st.frames }

/-! ## Evaluator helpers (Go package `evaluator`) -/

/-- `nativeBoolToBooleanObject`: in Go this returns the package-level
singletons `TRUE`/`FALSE`; here the boolean value itself is the canonical
representation. -/
def nativeBoolToBooleanObject (b : Bool) : Obj := .boolO b

/-- `isError` (false on nil). -/
def isErrorV : V → Bool
  | some (.errorO _) => true
  | _ => false

/-- `isTruthy`: a switch on the singletons NULL/TRUE/FALSE; everything else
(including a Go nil interface) takes the default branch and is truthy. -/
def isTruthy : V → Bool
  | some .nullO => false
  | some (.boolO b) => b
  | _ => true

/-- `evalBangOperatorExpression`: true→false, false→true, null→true,
anything else (nil included) → false. -/
def evalBangOperatorExpression : V → Obj
  | some (.boolO true) => .boolO false
  | some (.boolO false) => .boolO true
  | some .nullO => .boolO true
  | _ => .boolO false

/-- `evalMinusPrefixOperatorExpression`.  `right.Type()` on a nil interface
panics; a non-integer yields the source's (misspelled) error message. -/
def evalMinusPrefixOperatorExpression : V → Res V
  | none => .crash
  | some (.intO v) => .ok (some (.intO (wrap64 (-v))))
  | some o => .ok (some (.errorO ("unknon operator: -" ++ tagStr (typeOf o))))

/-- `evalPrefix`: dispatch on the operator literal. -/
def evalPrefix (op : Bytes) (right : V) : Res V :=
  if op = str "!" then .ok (some (evalBangOperatorExpression right))
  else if op = str "-" then evalMinusPrefixOperatorExpression right
  else
    match right with
    | none => .crash
    | some o =>
      .ok (some (.errorO ("unknown operator: " ++ decode op ++ " " ++ tagStr (typeOf o))))

/-- `evalIntegerInfixExpression`: wrapped 64-bit arithmetic, Go `/` truncates
toward zero and panics on a zero divisor; comparisons produce canonical
booleans. -/
def evalIntegerInfixExpression (op : Bytes) (a b : Int) : Res V :=
  if op = str "+" then .ok (some (.intO (wrap64 (a + b))))
  else if op = str "-" then .ok (some (.intO (wrap64 (a - b))))
  else if op = str "*" then .ok (some (.intO (wrap64 (a * b))))
  else if op = str "/" then
    if b = 0 then .crash else .ok (some (.intO (wrap64 (Int.tdiv a b))))
  else if op = str "<" then .ok (some (nativeBoolToBooleanObject (decide (a < b))))
  else if op = str ">" then .ok (some (nativeBoolToBooleanObject (decide (a > b))))
  else if op = str "==" then .ok (some (nativeBoolToBooleanObject (decide (a = b))))
  else if op = str "!=" then .ok (some (nativeBoolToBooleanObject (decide (a ≠ b))))
  else .ok (some (.errorO ("unknown operator: INTEGER " ++ decode op ++ " INTEGER")))

/-- `evalStringInfixExpression`: `+` concatenates, anything else is the
source's (misspelled) unknown-operator error. -/
def evalStringInfixExpression (op : Bytes) (a b : Bytes) : V :=
  if op = str "+" then some (.stringO (a ++ b))
  else some (.errorO ("unknow operator: STRING " ++ decode op ++ " STRING"))

/-- The trailing cases of `evalInfixExpression`: `==`/`!=` compare by Go
interface identity (no method call, so nil operands are fine); the default
case formats both types, panicking if the right operand is nil. -/
def evalInfixFallback (op : Bytes) (l r : V) : Res V :=
  if op = str "==" then .ok (some (nativeBoolToBooleanObject (goIfaceEq l r)))
  else if op = str "!=" then .ok (some (nativeBoolToBooleanObject (!goIfaceEq l r)))
  else
    match l, r with
    | some lo, some ro =>
      .ok (some (.errorO ("unknown operator: " ++ tagStr (typeOf lo) ++ " " ++
        decode op ++ " " ++ tagStr (typeOf ro))))
    | _, _ => .crash

/-- `evalInfixExpression`, following Go's case order and the `&&`
short-circuit: `left.Type()` is always called (nil left panics);
`right.Type()` is called only once the left operand is INTEGER or STRING, or
in the default error case. -/
def evalInfixExpression (op : Bytes) (l r : V) : Res V :=
  match l with
  | none => .crash
  | some lo =>
    if typeOf lo = .integerT then
      match r with
      | none => .crash
      | some ro =>
        match lo, ro with
        | .intO a, .intO b => evalIntegerInfixExpression op a b
        | _, _ => evalInfixFallback op (some lo) (some ro)
    else if typeOf lo = .stringT then
      match r with
      | none => .crash
      | some ro =>
        match lo, ro with
        | .stringO a, .stringO b => .ok (evalStringInfixExpression op a b)
        | _, _ => evalInfixFallback op (some lo) (some ro)
    else evalInfixFallback op l r

/-- `unwrapReturnValue`. -/
def unwrapReturnValue : V → V
  | some (.returnO v) => v
  | v => v

/-- `evalArrayIndexExpression` after the type tests: negative or past
`len-1` yields NULL, otherwise the element. -/
def evalArrayIndex (elems : List V) (idx : Int) : V :=
  if idx < 0 ∨ idx > (elems.length : Int) - 1 then some .nullO
  else elems.getD idx.toNat none

/-- Go map read `hashObject.Pairs[k]`. -/
def hashFind (hk : HashKey) : List (HashKey × Obj × V) → Option (Obj × V)
  | [] => none
  | (k, pr) :: rest => if k = hk then some pr else hashFind hk rest

/-- Go map write `pairs[hashed] = HashPair{Key:, Value:}`. -/
def hashInsert (hk : HashKey) (key : Obj) (v : V) :
    List (HashKey × Obj × V) → List (HashKey × Obj × V)
  | [] => [(hk, key, v)]
  | (k, pr) :: rest =>
    if k = hk then (k, key, v) :: rest else (k, pr) :: hashInsert hk key v rest

/-- `evalHashIndexExpression`: a nil index fails the `Hashable` assertion and
then panics inside `newError` (`index.Type()` on nil); a non-hashable index
is an error value; otherwise look up by `HashKey`, NULL when absent. -/
def evalHashIndexExpression (pairs : List (HashKey × Obj × V)) (i : V) : Res V :=
  match i with
  | none => .crash
  | some io =>
    match hashKeyOf io with
    | none => .ok (some (.errorO ("unusable as hash key: " ++ tagStr (typeOf io))))
    | some hk =>
      match hashFind hk pairs with
      | none => .ok (some .nullO)
      | some pr => .ok pr.2

/-- `evalIndexExpression`: Array+Integer and Hash are handled; any other
target type is an unsupported-index error.  `left.Type()` always runs (nil
panics); `index.Type()` runs only when the target is an Array. -/
def evalIndexExpression (l i : V) : Res V :=
  match l with
  | none => .crash
  | some lo =>
    if typeOf lo = .arrayT then
      match i with
      | none => .crash
      | some io =>
        match lo, io with
        | .arrayO _ elems, .intO idx => .ok (evalArrayIndex elems idx)
        | _, _ =>
          .ok (some (.errorO ("index operator not supported: " ++ tagStr (typeOf lo))))
    else if typeOf lo = .hashT then
      match lo with
      | .hashO _ pairs => evalHashIndexExpression pairs i
      | _ => .crash
    else .ok (some (.errorO ("index operator not supported: " ++ tagStr (typeOf lo))))

/-- The names in the `builtins` registry. -/
def builtinNames : List Bytes :=
  [str "len", str "first", str "last", str "rest", str "push", str "puts", str "now"]

/-- The builtin implementations (`evaluator/builtins.go`).  `puts` writes to
standard output, which is outside the modelled state; its panic behaviour
(calling `Inspect` on a nil argument) and NULL result are kept.  `now`
returns the wall-clock string, modelled by the `St.clock` oracle. -/
def applyBuiltin (name : Bytes) (args : List V) (st : St) : Res (V × St) :=
  if name = str "len" then
    if args.length ≠ 1 then
      .ok (some (.errorO ("wrong number of arguments. got=" ++ toString args.length ++
        ", want=1")), st)
    else
      match args.getD 0 none with
      | some (.arrayO _ elems) => .ok (some (.intO (elems.length : Int)), st)
      | some (.stringO s) => .ok (some (.intO (s.length : Int)), st)
      | some (.hashO _ pairs) => .ok (some (.intO (pairs.length : Int)), st)
      | some o =>
        .ok (some (.errorO ("argument to `len` not supported, got=" ++ tagStr (typeOf o))), st)
      | none => .crash
  else if name = str "first" then
    if args.length ≠ 1 then
      .ok (some (.errorO ("wrong number of arguments. got=" ++ toString args.length ++
        ", want=1")), st)
    else
      match args.getD 0 none with
      | none => .crash
      | some (.arrayO _ elems) =>
        if elems.length > 0 then .ok (elems.getD 0 none, st) else .ok (some .nullO, st)
      | some o =>
        .ok (some (.errorO ("argument to `first` must be ARRAY, got " ++ tagStr (typeOf o))), st)
  else if name = str "last" then
    if args.length ≠ 1 then
      .ok (some (.errorO ("wrong number of arguments. got=" ++ toString args.length ++
        ", want=1")), st)
    else
      match args.getD 0 none with
      | none => .crash
      | some (.arrayO _ elems) =>
        if elems.length > 0 then .ok (elems.getD (elems.length - 1) none, st)
        else .ok (some .nullO, st)
      | some o =>
        .ok (some (.errorO ("argument to `last` must be ARRAY, got " ++ tagStr (typeOf o))), st)
  else if name = str "rest" then
    if args.length ≠ 1 then
      .ok (some (.errorO ("wrong number of arguments. got=" ++ toString args.length ++
        ", want=1")), st)
    else
      match args.getD 0 none with
      | none => .crash
      | some (.arrayO _ elems) =>
        if elems.length > 0 then
          .ok (some (.arrayO st.nextId elems.tail), { st with nextId := st.nextId + 1 })
        else .ok (some .nullO, st)
      | some o =>
        .ok (some (.errorO ("argument to `rest` must be ARRAY, got " ++ tagStr (typeOf o))), st)
  else if name = str "push" then
    if args.length ≠ 2 then
      .ok (some (.errorO ("wrong number of arguments. got=" ++ toString args.length ++
        ", want=1")), st)
    else
      match args.getD 0 none with
      | none => .crash
      | some (.arrayO _ elems) =>
        .ok (some (.arrayO st.nextId (elems ++ [args.getD 1 none])),
          { st with nextId := st.nextId + 1 })
      | some o =>
        .ok (some (.errorO ("argument to `push` must be ARRAY, got " ++ tagStr (typeOf o))), st)
  else if name = str "puts" then
    if args.all (fun a => a.isSome) then .ok (some .nullO, st) else .crash
  else if name = str "now" then
    if args.length ≠ 0 then
      .ok (some (.errorO ("too many parameters, expect :0, given :" ++
        toString args.length)), st)
    else .ok (some (.stringO st.clock), st)
  else .crash

/-- `extendFunctionEnv`'s binding loop: `env.Set(param.Value, args[paramIdx])`
with `paramIdx` running over the parameters; `args[paramIdx]` out of range is
a Go panic. -/
def extendParamsAux (idx : Nat) (ps : List Bytes) (args : List V) (ref : Nat)
    (st : St) : Res St :=
  match ps with
  | [] => .ok st
  | pname :: rest =>
    match args.get? idx with
    | none => .crash
    | some v => extendParamsAux (idx + 1) rest args ref (envSet st ref pname v)

/-- `extendFunctionEnv`: a fresh environment enclosed in the function's
defining environment, with parameters bound by position. -/
def extendFunctionEnv (ps : Option (List Bytes)) (args : List V) (fenv : Nat)
    (st : St) : Res (Nat × St) :=
  let (ref, st1) := newEnclosedEnvironment fenv st
  match extendParamsAux 0 (ps.getD []) args ref st1 with
  | .ok st2 => .ok (ref, st2)
  | .crash => .crash
  | .out => .out

/-- Lift an `Option Expr` field to an evaluator argument (a nil sub-node is
passed to `Eval` as a nil `ast.Node`). -/
def optExprNode (oe : Option Expr) : Option Node := oe.map .exprN

/-- The type of `Eval` at one fuel level. -/
abbrev EvalFn := Option Node → Nat → St → Res (V × St)

/-- `evalProgram`'s statement loop at one fuel level (`ev` is `Eval` one
level down): statements in order; a `ReturnValue` stops and is unwrapped, an
`Error` stops and is returned; otherwise the last statement's value (nil for
an empty program, since `result` starts as Go nil). -/
def evalProgramGo (ev : EvalFn) : List Stmt → Nat → St → Res (V × St)
  | [], _, st => .ok (none, st)
  | s :: rest, env, st => do
    let (r, st) ← ev (some (.stmtN s)) env st
    match r with
    | some (.returnO v) => .ok (v, st)
    | some (.errorO m) => .ok (some (.errorO m), st)
    | _ => if rest.isEmpty then .ok (r, st) else evalProgramGo ev rest env st

/-- `evalBlockStatement`'s loop: statements in order; a result whose
`Type()` is RETURN_VALUE or ERROR is returned as is (no unwrapping).  The Go
code calls `result.Type()` with no nil check, so a statement that evaluates
to nil panics here; an empty block returns nil without entering the loop. -/
def evalBlockGo (ev : EvalFn) : List Stmt → Nat → St → Res (V × St)
  | [], _, st => .ok (none, st)
  | s :: rest, env, st => do
    let (r, st) ← ev (some (.stmtN s)) env st
    match r with
    | none => .crash
    | some o =>
      if typeOf o = .returnT ∨ typeOf o = .errorT then .ok (some o, st)
      else if rest.isEmpty then .ok (some o, st) else evalBlockGo ev rest env st

/-- `evalExpressions`: left to right; on the first error value the result is
the one-element list holding it (the accumulated prefix is discarded). -/
def evalExpsGo (ev : EvalFn) : List (Option Expr) → List V → Nat → St →
    Res (List V × St)
  | [], acc, _, st => .ok (acc, st)
  | e :: rest, acc, env, st => do
    let (v, st) ← ev (optExprNode e) env st
    if isErrorV v then .ok ([v], st)
    else evalExpsGo ev rest (acc ++ [v]) env st

/-- `evalHashLiteral`'s pair loop over the parsed pairs in the order given
(the Go source iterates a `map[ast.Expression]ast.Expression`, whose
iteration order is unspecified; theorems about order sensitivity quantify
over the list order).  Key first, `Hashable` check (a nil key panics inside
`newError`), then value; `Sum.inl` is an early error return. -/
def evalHashPairsGo (ev : EvalFn) : List (Option Expr × Option Expr) →
    List (HashKey × Obj × V) → Nat → St → Res ((V ⊕ List (HashKey × Obj × V)) × St)
  | [], acc, _, st => .ok (.inr acc, st)
  | (k, v) :: rest, acc, env, st => do
    let (kv, st) ← ev (optExprNode k) env st
    if isErrorV kv then .ok (.inl kv, st)
    else
      match kv with
      | none => .crash
      | some ko =>
        match hashKeyOf ko with
        | none =>
          .ok (.inl (some (.errorO ("unusable as hash key: " ++ tagStr (typeOf ko)))), st)
        | some hk => do
          let (vv, st) ← ev (optExprNode v) env st
          if isErrorV vv then .ok (.inl vv, st)
          else evalHashPairsGo ev rest (hashInsert hk ko vv acc) env st

/-- `applyFunction`: user functions get an extended environment and their
body evaluated as a block with the `ReturnValue` unwrapped; builtins are
invoked on the argument vector; a nil callee panics at `fn.Type()`, any
other value is a not-a-function error. -/
def applyFunctionGo (ev : EvalFn) (fv : V) (args : List V) (st : St) :
    Res (V × St) :=
  match fv with
  | some (.funcO _ ps body fenv) => do
    let (ref, st) ← extendFunctionEnv ps args fenv st
    let (ev', st) ← ev (some (.blockN body)) ref st
    .ok (unwrapReturnValue ev', st)
  | some (.builtinO nm) => applyBuiltin nm args st
  | some o => .ok (some (.errorO ("not a function " ++ tagStr (typeOf o))), st)
  | none => .crash

/-- One fuel level of `Eval`, the main dispatch (`evaluator.go`).  `none` as
the node is a nil `ast.Node`, which falls through the Go type switch and
returns nil.  Every `Eval` recursion (directly or through the helpers above)
runs one fuel level down; the helpers' own list recursion stays within the
level. -/
def evalStep (ev : EvalFn) : EvalFn := fun node env st =>
  match node with
  | none => .ok (none, st)
  | some node =>
    match node with
    | .prog stmts => evalProgramGo ev stmts env st
    | .blockN stmts => evalBlockGo ev stmts env st
    | .stmtN (.exprS e) => ev (optExprNode e) env st
    | .stmtN (.retS e) => do
      let (v, st) ← ev (optExprNode e) env st
      if isErrorV v then .ok (v, st) else .ok (some (.returnO v), st)
    | .stmtN (.letS name e) => do
      let (v, st) ← ev (optExprNode e) env st
      if isErrorV v then .ok (v, st) else .ok (v, envSet st env name v)
    | .exprN (.intLit v) => .ok (some (.intO v), st)
    | .exprN (.boolLit b) => .ok (some (nativeBoolToBooleanObject b), st)
    | .exprN (.strLit s) => .ok (some (.stringO s), st)
    | .exprN (.prefixE op r) => do
      let (right, st) ← ev (optExprNode r) env st
      if isErrorV right then .ok (right, st)
      else do
        let v ← evalPrefix op right
        .ok (v, st)
    | .exprN (.infixE op l r) => do
      let (lv, st) ← ev (optExprNode l) env st
      if isErrorV lv then .ok (lv, st)
      else do
        let (rv, st) ← ev (optExprNode r) env st
        if isErrorV rv then .ok (rv, st)
        else do
          let v ← evalInfixExpression op lv rv
          .ok (v, st)
    | .exprN (.ifE cond cons alt) => do
      let (c, st) ← ev (optExprNode cond) env st
      if isErrorV c then .ok (c, st)
      else if isTruthy c then ev (some (.blockN cons)) env st
      else
        match alt with
        | some a => ev (some (.blockN a)) env st
        | none => .ok (some .nullO, st)
    | .exprN (.ident name) =>
      match envGet st env name with
      | some v => .ok (v, st)
      | none =>
        if builtinNames.contains name then .ok (some (.builtinO name), st)
        else .ok (some (.errorO ("idenfier not found: " ++ decode name)), st)
    | .exprN (.funcLit ps body) =>
      .ok (some (.funcO st.nextId ps body env), { st with nextId := st.nextId + 1 })
    | .exprN (.callE f argEs) => do
      let (fv, st) ← ev (optExprNode f) env st
      if isErrorV fv then .ok (fv, st)
      else do
        let (args, st) ← evalExpsGo ev (argEs.getD []) [] env st
        if args.length = 1 ∧ isErrorV (args.getD 0 none) then .ok (args.getD 0 none, st)
        else applyFunctionGo ev fv args st
    | .exprN (.arrayLit elemEs) => do
      let (elems, st) ← evalExpsGo ev (elemEs.getD []) [] env st
      if elems.length = 1 ∧ isErrorV (elems.getD 0 none) then .ok (elems.getD 0 none, st)
      else .ok (some (.arrayO st.nextId elems), { st with nextId := st.nextId + 1 })
    | .exprN (.indexE l i) => do
      let (lv, st) ← ev (optExprNode l) env st
      if isErrorV lv then .ok (lv, st)
      else do
        let (iv, st) ← ev (optExprNode i) env st
        if isErrorV iv then .ok (iv, st)
        else do
          let v ← evalIndexExpression lv iv
          .ok (v, st)
    | .exprN (.hashLit pairs) => do
      let (r, st) ← evalHashPairsGo ev pairs [] env st
      match r with
      | .inl errv => .ok (errv, st)
      | .inr prs =>
        .ok (some (.hashO st.nextId prs), { st with nextId := st.nextId + 1 })

/-- `Eval` with fuel: `n` nested `Eval` entries are allowed before the
artificial `.out`. -/
def evalF (n : Nat) : EvalFn :=
  natIter (fun _ _ _ => .out) evalStep n

/-- The top-level state: one empty global environment (frame 0), as the REPL
driver creates with `object.NewEnvironment()`. -/
def st0 : St := { frames := [⟨[], none⟩], nextId := 0, clock := [] }

/-- Full pipeline: lex and parse the source, then evaluate the program in a
fresh top-level environment. -/
def runSrc (n : Nat) (src : String) : Res (V × St) :=
  match frontEndF n (str src) with
  | .out => .out
  | .crash => .crash
  | .ok (stmts, _) => evalF n (some (.prog stmts)) 0 st0

/-- Project the returned value out of a run. -/
def resValue : Res (V × St) → Option V
  | .ok (v, _) => some v
  | _ => none

/-- Did the computation end in a Go runtime panic? -/
def resIsCrash {α : Type} : Res α → Bool
  | .crash => true
  | _ => false

/-! ## Theorems -/

/-- Unfolding one fuel level of `Eval`. -/
theorem evalF_succ (n : Nat) : evalF (n + 1) = evalStep (evalF n) := rfl

/-- Is a value a wrapped `ReturnValue`? (discriminator used in statements) -/
def isRetV : V → Bool
  | some (.returnO _) => true
  | _ => false

/-- C1.  Return/Error propagation discipline: `evalProgram` walks statements
in order and stops on a `ReturnValue` (returning it unwrapped) or an `Error`
(returned as is), otherwise yielding the last statement's value; a Block
that yields a RETURN_VALUE- or ERROR-typed result returns it WITHOUT
unwrapping, so enclosing frames see the return.  Consequently at program
scope `return X;` has exactly the value of `X`, and a return nested in inner
blocks escapes to program scope (concrete run yields 10, skipping
`return 1`). -/
theorem c1_propagation :
    (∀ (n : Nat) (s : Stmt) (rest : List Stmt) (env : Nat) (st st' : St) (v : V),
      evalF n (some (.stmtN s)) env st = .ok (some (.returnO v), st') →
      evalF (n + 1) (some (.prog (s :: rest))) env st = .ok (v, st')) ∧
    (∀ (n : Nat) (s : Stmt) (rest : List Stmt) (env : Nat) (st st' : St) (m : String),
      evalF n (some (.stmtN s)) env st = .ok (some (.errorO m), st') →
      evalF (n + 1) (some (.prog (s :: rest))) env st = .ok (some (.errorO m), st')) ∧
    (∀ (n : Nat) (s : Stmt) (rest : List Stmt) (env : Nat) (st st' : St) (r : V),
      evalF n (some (.stmtN s)) env st = .ok (r, st') →
      isRetV r = false → isErrorV r = false →
      evalF (n + 1) (some (.prog (s :: rest))) env st =
        (if rest.isEmpty then .ok (r, st') else evalProgramGo (evalF n) rest env st')) ∧
    (∀ (n : Nat) (s : Stmt) (rest : List Stmt) (env : Nat) (st st' : St) (r : Obj),
      evalF n (some (.stmtN s)) env st = .ok (some r, st') →
      (typeOf r = .returnT ∨ typeOf r = .errorT) →
      evalF (n + 1) (some (.blockN (s :: rest))) env st = .ok (some r, st')) ∧
    (∀ (n : Nat) (s : Stmt) (rest : List Stmt) (env : Nat) (st st' : St) (r : Obj),
      evalF n (some (.stmtN s)) env st = .ok (some r, st') →
      typeOf r ≠ .returnT → typeOf r ≠ .errorT →
      evalF (n + 1) (some (.blockN (s :: rest))) env st =
        (if rest.isEmpty then .ok (some r, st') else evalBlockGo (evalF n) rest env st')) ∧
    (∀ (n : Nat) (e : Expr) (env : Nat) (st : St),
      evalF (n + 2) (some (.prog [.retS (some e)])) env st =
        evalF n (some (.exprN e)) env st) ∧
    (resValue (runSrc 40 "if (10 > 1) \x7b if (10 > 1) \x7b return 10; \x7d return 1; \x7d") =
      some (some (.intO 10))) ∧
    (resValue (runSrc 40 "return 7;") = some (some (.intO 7))) := by
  refine ⟨?_, ?_, ?_, ?_, ?_, ?_, rfl, rfl⟩
  · intro n s rest env st st' v h
    show evalProgramGo (evalF n) (s :: rest) env st = _
    simp [evalProgramGo, h, Res.bind]
  · intro n s rest env st st' m h
    show evalProgramGo (evalF n) (s :: rest) env st = _
    simp [evalProgramGo, h, Res.bind]
  · intro n s rest env st st' r h hr he
    show evalProgramGo (evalF n) (s :: rest) env st = _
    rcases r with _ | o
    · simp [evalProgramGo, h, Res.bind]
    · cases o <;> simp_all [evalProgramGo, Res.bind, isRetV, isErrorV]
  · intro n s rest env st st' r h hr
    show evalBlockGo (evalF n) (s :: rest) env st = _
    simp [evalBlockGo, h, Res.bind, hr]
  · intro n s rest env st st' r h hr he
    show evalBlockGo (evalF n) (s :: rest) env st = _
    simp [evalBlockGo, h, Res.bind, hr, he]
  · intro n e env st
    show evalProgramGo (evalF (n + 1)) [.retS (some e)] env st = _
    rcases h : evalF n (some (.exprN e)) env st with _ | _ | ⟨v, st'⟩ <;>
      simp [evalProgramGo, evalF_succ, evalStep, optExprNode, h, Res.bind]
    rcases v with _ | o
    · simp [isErrorV]
    · cases o <;> simp [isErrorV]

/-- C9.  Canonical-singleton discipline: booleans and null carry no identity
beyond their value (the evaluator only produces the `TRUE`/`FALSE`/`NULL`
singletons, which the embedding bakes into `boolO`/`nullO` and `goObjEq`),
so the `==`/`!=` identity fallback agrees with value equality on booleans,
`null == null` is true, and null never equals a boolean.  End to end, the
boolean produced by `1 < 2` is identical to the literal `true`. -/
theorem c9_singleton_bool_eq :
    (∀ b1 b2 : Bool, evalInfixExpression (str "==") (some (.boolO b1)) (some (.boolO b2)) =
      .ok (some (nativeBoolToBooleanObject (b1 == b2)))) ∧
    (∀ b1 b2 : Bool, evalInfixExpression (str "!=") (some (.boolO b1)) (some (.boolO b2)) =
      .ok (some (nativeBoolToBooleanObject (!(b1 == b2))))) ∧
    (evalInfixExpression (str "==") (some .nullO) (some .nullO) =
      .ok (some (.boolO true))) ∧
    (∀ b : Bool, evalInfixExpression (str "==") (some .nullO) (some (.boolO b)) =
      .ok (some (.boolO false))) ∧
    (resValue (runSrc 40 "(1 < 2) == true") = some (some (.boolO true))) := by
  refine ⟨?_, ?_, rfl, ?_, rfl⟩
  · intro b1 b2; cases b1 <;> cases b2 <;> rfl
  · intro b1 b2; cases b1 <;> cases b2 <;> rfl
  · intro b; rfl

/-- C10.  Eval is NOT total at the public interface: an empty Block (and an
empty Program) evaluates to the Go nil interface, a call of an empty-bodied
function therefore yields nil, and using that nil as an operand makes
`evalInfixExpression` call `left.Type()` on a nil interface — a runtime
panic, not an Error value.  `fn(){}() + 1` crashes; `fn(){}();` returns
nil. -/
theorem c10_eval_nil :
    (∀ (n : Nat) (env : Nat) (st : St),
      evalF (n + 1) (some (.blockN [])) env st = .ok (none, st)) ∧
    (resValue (runSrc 40 "fn()\x7b\x7d();") = some none) ∧
    (runSrc 40 "fn()\x7b\x7d() + 1" = .crash) := by
  exact ⟨fun n env st => rfl, rfl, rfl⟩

/-- The colliding-key hash literal `{1: "a", 1: "b"}` as its parsed pair
list (both pairs are present in the Go `map[ast.Expression]ast.Expression`,
keyed by distinct AST node pointers). -/
def c4Pairs : List (Option Expr × Option Expr) :=
  [(some (.intLit 1), some (.strLit (str "a"))),
   (some (.intLit 1), some (.strLit (str "b")))]

/-- C4.  Hash-literal evaluation is order sensitive: the evaluator iterates
the parser's `map[ast.Expression]ast.Expression` whose iteration order Go
randomizes, and with two keys of equal `HashKey` the stored value is
whichever pair was inserted last.  The two possible iteration orders of
`{1: "a", 1: "b"}` (the same pair multiset, as the `Perm` conjunct records)
produce different `Hash` values, so evaluation of this literal is not
deterministic run to run. -/
theorem c4_hash_order :
    (c4Pairs.reverse.Perm c4Pairs) ∧
    (evalHashPairsGo (evalF 5) c4Pairs [] 0 st0 =
      .ok (.inr [(⟨.integerT, 1⟩, .intO 1, some (.stringO (str "b")))], st0)) ∧
    (evalHashPairsGo (evalF 5) c4Pairs.reverse [] 0 st0 =
      .ok (.inr [(⟨.integerT, 1⟩, .intO 1, some (.stringO (str "a")))], st0)) ∧
    (evalF 6 (some (.exprN (.hashLit c4Pairs))) 0 st0 ≠
      evalF 6 (some (.exprN (.hashLit c4Pairs.reverse))) 0 st0) := by
  refine ⟨List.reverse_perm _, rfl, rfl, ?_⟩
  intro h
  rw [show evalF 6 (some (.exprN (.hashLit c4Pairs))) 0 st0 =
        .ok (some (.hashO 0 [(⟨.integerT, 1⟩, .intO 1, some (.stringO (str "b")))]),
          { st0 with nextId := 1 }) from rfl,
      show evalF 6 (some (.exprN (.hashLit c4Pairs.reverse))) 0 st0 =
        .ok (some (.hashO 0 [(⟨.integerT, 1⟩, .intO 1, some (.stringO (str "a")))]),
          { st0 with nextId := 1 }) from rfl] at h
  simp [str] at h

/-- C7.  Index-expression semantics: Array+Integer with a negative or
too-large index yields null (not an error) and an in-range index yields the
element; a Hash looks up hashable indices by `HashKey` with null for an
absent key and an error value for a non-hashable index; an Array with a
non-Integer index and every non-Array/non-Hash target yield the
unsupported-index error.  Concrete runs exercise the array paths end to
end. -/
theorem c7_index_semantics :
    (∀ (id : Nat) (elems : List V) (idx : Int),
      0 ≤ idx → idx < (elems.length : Int) →
      evalIndexExpression (some (.arrayO id elems)) (some (.intO idx)) =
        .ok (elems.getD idx.toNat none)) ∧
    (∀ (id : Nat) (elems : List V) (idx : Int),
      idx < 0 ∨ (elems.length : Int) ≤ idx →
      evalIndexExpression (some (.arrayO id elems)) (some (.intO idx)) =
        .ok (some .nullO)) ∧
    (∀ (id : Nat) (pairs : List (HashKey × Obj × V)) (io : Obj) (hk : HashKey)
      (pr : Obj × V),
      hashKeyOf io = some hk → hashFind hk pairs = some pr →
      evalIndexExpression (some (.hashO id pairs)) (some io) = .ok pr.2) ∧
    (∀ (id : Nat) (pairs : List (HashKey × Obj × V)) (io : Obj) (hk : HashKey),
      hashKeyOf io = some hk → hashFind hk pairs = none →
      evalIndexExpression (some (.hashO id pairs)) (some io) = .ok (some .nullO)) ∧
    (∀ (id : Nat) (pairs : List (HashKey × Obj × V)) (io : Obj),
      hashKeyOf io = none →
      evalIndexExpression (some (.hashO id pairs)) (some io) =
        .ok (some (.errorO ("unusable as hash key: " ++ tagStr (typeOf io))))) ∧
    (∀ (id : Nat) (elems : List V) (io : Obj),
      typeOf io ≠ .integerT →
      evalIndexExpression (some (.arrayO id elems)) (some io) =
        .ok (some (.errorO "index operator not supported: ARRAY"))) ∧
    (∀ (lo : Obj) (i : V),
      typeOf lo ≠ .arrayT → typeOf lo ≠ .hashT →
      evalIndexExpression (some lo) i =
        .ok (some (.errorO ("index operator not supported: " ++ tagStr (typeOf lo))))) ∧
    (resValue (runSrc 40 "[1,2,3][1]") = some (some (.intO 2))) ∧
    (resValue (runSrc 40 "[1,2,3][5]") = some (some .nullO)) ∧
    (resValue (runSrc 40 "[1,2,3][0-1]") = some (some .nullO)) ∧
    (resValue (runSrc 40 "\x7b11: 1\x7d[22]") = some (some .nullO)) ∧
    (resValue (runSrc 40 "\x7b11: 1\x7d[11]") = some (some (.intO 1))) ∧
    (resValue (runSrc 40 "5[0]") =
      some (some (.errorO "index operator not supported: INTEGER"))) := by
  refine ⟨?_, ?_, ?_, ?_, ?_, ?_, ?_, rfl, rfl, rfl, rfl, rfl, rfl⟩
  · intro id elems idx h1 h2
    simp only [evalIndexExpression, typeOf, evalArrayIndex, reduceIte]
    rw [if_neg (by omega)]
  · intro id elems idx h
    simp only [evalIndexExpression, typeOf, evalArrayIndex, reduceIte]
    rw [if_pos (by omega)]
  · intro id pairs io hk pr h1 h2
    simp [evalIndexExpression, typeOf, evalHashIndexExpression, h1, h2]
  · intro id pairs io hk h1 h2
    simp [evalIndexExpression, typeOf, evalHashIndexExpression, h1, h2]
  · intro id pairs io h1
    simp [evalIndexExpression, typeOf, evalHashIndexExpression, h1]
  · intro id elems io h
    cases io <;> simp_all [evalIndexExpression, typeOf, tagStr]
  · intro lo i h1 h2
    simp [evalIndexExpression, h1, h2]

/-- C7 witness: the hypothesis-bearing conjuncts at concrete inputs. -/
theorem c7_index_semantics_witness :
    evalIndexExpression (some (.arrayO 0 [some (.intO 7), some (.intO 9)]))
        (some (.intO 1)) = .ok (some (.intO 9)) ∧
    evalIndexExpression (some (.arrayO 0 [some (.intO 7)])) (some (.intO (-1))) =
      .ok (some .nullO) ∧
    evalIndexExpression (some (.hashO 0 [(⟨.integerT, 3⟩, .intO 3, some (.intO 8))]))
        (some (.intO 3)) = .ok (some (.intO 8)) ∧
    evalIndexExpression (some (.hashO 0 [])) (some (.intO 3)) = .ok (some .nullO) ∧
    evalIndexExpression (some (.hashO 0 [])) (some (.arrayO 1 [])) =
      .ok (some (.errorO "unusable as hash key: ARRAY")) ∧
    evalIndexExpression (some (.arrayO 0 [])) (some (.boolO true)) =
      .ok (some (.errorO "index operator not supported: ARRAY")) ∧
    evalIndexExpression (some (.intO 5)) (some (.intO 0)) =
      .ok (some (.errorO "index operator not supported: INTEGER")) := by
  refine ⟨?_, ?_, ?_, ?_, ?_, ?_, ?_⟩
  · exact c7_index_semantics.1 0 _ 1 (by norm_num) (by norm_num)
  · exact c7_index_semantics.2.1 0 _ (-1) (by norm_num)
  · exact c7_index_semantics.2.2.1 0 _ (.intO 3) ⟨.integerT, 3⟩ (⟨.intO 3, some (.intO 8)⟩) rfl rfl
  · exact c7_index_semantics.2.2.2.1 0 [] (.intO 3) ⟨.integerT, 3⟩ rfl rfl
  · exact c7_index_semantics.2.2.2.2.1 0 [] (.arrayO 1 []) rfl
  · exact c7_index_semantics.2.2.2.2.2.1 0 [] (.boolO true) (by decide)
  · exact c7_index_semantics.2.2.2.2.2.2.1 (.intO 5) (some (.intO 0)) (by decide) (by decide)

/-- The parameter-binding loop only reads `args` at the positions of the
remaining parameters. -/
theorem extendParamsAux_congr (ps : List Bytes) :
    ∀ (args1 args2 : List V) (idx ref : Nat) (st : St),
    (∀ j, j < ps.length → args1.get? (idx + j) = args2.get? (idx + j)) →
    extendParamsAux idx ps args1 ref st = extendParamsAux idx ps args2 ref st := by
  induction ps with
  | nil => intro args1 args2 idx ref st h; rfl
  | cons p rest ih =>
    intro args1 args2 idx ref st h
    have h0 : args1.get? idx = args2.get? idx := by
      have := h 0 (by simp)
      simpa using this
    simp only [extendParamsAux, h0]
    cases h2 : args2.get? idx with
    | none => rfl
    | some v =>
      exact ih args1 args2 (idx + 1) ref _ (fun j hj => by
        have := h (j + 1) (by simpa using Nat.succ_lt_succ hj)
        simpa [Nat.add_assoc, Nat.add_comm 1 j] using this)

/-- Binding fewer arguments than parameters runs off the end of `args`. -/
theorem extendParamsAux_short (ps : List Bytes) :
    ∀ (args : List V) (idx ref : Nat) (st : St),
    idx ≤ args.length → args.length < idx + ps.length →
    extendParamsAux idx ps args ref st = .crash := by
  induction ps with
  | nil => intro args idx ref st h1 h2; simp at h2; omega
  | cons p rest ih =>
    intro args idx ref st h1 h2
    by_cases hc : idx = args.length
    · have hn : args.get? idx = none := by
        rw [List.get?_eq_none]; omega
      simp only [extendParamsAux]
      rw [hn]
    · have hlt : idx < args.length := by omega
      obtain ⟨v, hv⟩ : ∃ v, args.get? idx = some v := by
        rw [List.get?_eq_get hlt]; exact ⟨_, rfl⟩
      simp only [extendParamsAux]
      rw [hv]
      exact ih args (idx + 1) ref _ (by omega) (by simp at h2 ⊢; omega)

/-- C6.  Argument arity is not checked for user-defined functions: binding
ignores every argument beyond the parameter count, so a call's result equals
the call on the parameter-count prefix of the arguments; with fewer
arguments than parameters the binding loop indexes `args` out of range,
which is a Go runtime panic (`Res.crash`), not a "wrong number of arguments"
error value.  Concrete runs: `fn(x){x}(1,2)` yields 1, `fn(x,y){x}(1)`
panics. -/
theorem c6_arity_unchecked :
    (∀ (ps : List Bytes) (args : List V) (fenv : Nat) (st : St),
      extendFunctionEnv (some ps) args fenv st =
        extendFunctionEnv (some ps) (args.take ps.length) fenv st) ∧
    (∀ (n id : Nat) (ps : List Bytes) (body : List Stmt) (fenv : Nat)
      (args : List V) (st : St),
      applyFunctionGo (evalF n) (some (.funcO id (some ps) body fenv)) args st =
        applyFunctionGo (evalF n) (some (.funcO id (some ps) body fenv))
          (args.take ps.length) st) ∧
    (∀ (ps : List Bytes) (args : List V) (fenv : Nat) (st : St),
      args.length < ps.length →
      extendFunctionEnv (some ps) args fenv st = .crash) ∧
    (∀ (n id : Nat) (ps : List Bytes) (body : List Stmt) (fenv : Nat)
      (args : List V) (st : St),
      args.length < ps.length →
      applyFunctionGo (evalF n) (some (.funcO id (some ps) body fenv)) args st =
        .crash) ∧
    (resValue (runSrc 40 "fn(x)\x7bx\x7d(1,2)") = some (some (.intO 1))) ∧
    (runSrc 40 "fn(x,y)\x7bx\x7d(1)" = .crash) := by
  have htake : ∀ (ps : List Bytes) (args : List V) (fenv : Nat) (st : St),
      extendFunctionEnv (some ps) args fenv st =
        extendFunctionEnv (some ps) (args.take ps.length) fenv st := by
    intro ps args fenv st
    simp only [extendFunctionEnv, Option.getD]
    rw [extendParamsAux_congr ps args (args.take ps.length) 0 _ _
      (fun j hj => by
        rw [List.get?_eq_getElem?, List.get?_eq_getElem?,
          List.getElem?_take_of_lt (by omega)])]
  have hshort : ∀ (ps : List Bytes) (args : List V) (fenv : Nat) (st : St),
      args.length < ps.length →
      extendFunctionEnv (some ps) args fenv st = .crash := by
    intro ps args fenv st h
    simp only [extendFunctionEnv, Option.getD]
    rw [extendParamsAux_short ps args 0 _ _ (by omega) (by omega)]
  refine ⟨htake, ?_, hshort, ?_, rfl, rfl⟩
  · intro n id ps body fenv args st
    simp only [applyFunctionGo]
    rw [htake]
  · intro n id ps body fenv args st h
    simp only [applyFunctionGo]
    rw [hshort ps args fenv st h]
    rfl

/-- C6 witness: the arity behaviours at a concrete one-parameter function. -/
theorem c6_arity_unchecked_witness :
    applyFunctionGo (evalF 3)
        (some (.funcO 0 (some [str "x"]) [.exprS (some (.ident (str "x")))] 0))
        [some (.intO 1), some (.intO 2)] st0 =
      applyFunctionGo (evalF 3)
        (some (.funcO 0 (some [str "x"]) [.exprS (some (.ident (str "x")))] 0))
        [some (.intO 1)] st0 ∧
    applyFunctionGo (evalF 3)
        (some (.funcO 0 (some [str "x", str "y"]) [.exprS (some (.ident (str "x")))] 0))
        [some (.intO 1)] st0 = .crash := by
  constructor
  · exact c6_arity_unchecked.2.1 3 0 [str "x"] [.exprS (some (.ident (str "x")))] 0
      [some (.intO 1), some (.intO 2)] st0
  · exact c6_arity_unchecked.2.2.2.1 3 0 [str "x", str "y"]
      [.exprS (some (.ident (str "x")))] 0 [some (.intO 1)] st0 (by decide)

/-- The store produced by binding parameters to arguments in order
(`storeSet` into an initially empty store). -/
def paramBindings (ps : List Bytes) (args : List V) : List (Bytes × V) :=
  (ps.zip args).foldl (fun s pa => storeSet pa.1 pa.2 s) []

/-- `updateAt` on the last element of an appended singleton. -/
theorem updateAt_append_last {α : Type} (pre : List α) (x : α) (f : α → α) :
    updateAt pre.length f (pre ++ [x]) = pre ++ [f x] := by
  induction pre with
  | nil => rfl
  | cons y ys ih => simp [updateAt, ih]

/-- The binding loop writes exactly the parameter/argument pairs (in order)
into the store of the frame it was given. -/
theorem extendParamsAux_spec (ps : List Bytes) :
    ∀ (args : List V) (idx : Nat) (st : St) (pre : List Frame) (s : List (Bytes × V))
      (fenv : Nat),
    idx + ps.length ≤ args.length →
    st.frames = pre ++ [⟨s, some fenv⟩] →
    extendParamsAux idx ps args pre.length st =
      .ok { st with frames :=
        pre ++ [⟨(ps.zip (args.drop idx)).foldl (fun acc pa => storeSet pa.1 pa.2 acc) s,
          some fenv⟩] } := by
  induction ps with
  | nil =>
    intro args idx st pre s fenv hb hfr
    rw [show extendParamsAux idx [] args pre.length st = .ok st from rfl,
      show ([] : List Bytes).zip (args.drop idx) = [] from rfl, List.foldl_nil, ← hfr]
  | cons p rest ih =>
    intro args idx st pre s fenv hb hfr
    have hlt : idx < args.length := by simp at hb; omega
    obtain ⟨v, hv⟩ : ∃ v, args.get? idx = some v := by
      rw [List.get?_eq_get hlt]; exact ⟨_, rfl⟩
    have hdrop : args.drop idx = v :: args.drop (idx + 1) := by
      have h2 : args[idx] = v := by
        have := List.get?_eq_get hlt
        rw [this] at hv
        simpa using hv
      rw [List.drop_eq_getElem_cons hlt, h2]
    have hset : (envSet st pre.length p v).frames =
        pre ++ [⟨storeSet p v s, some fenv⟩] := by
      simp [envSet, hfr, updateAt_append_last]
    have step1 : extendParamsAux idx (p :: rest) args pre.length st =
        extendParamsAux (idx + 1) rest args pre.length (envSet st pre.length p v) := by
      simp only [extendParamsAux, hv]
    rw [step1,
      ih args (idx + 1) (envSet st pre.length p v) pre (storeSet p v s) fenv
        (by simp at hb ⊢; omega) hset,
      hdrop]
    simp [envSet]

/-- C2.  Closure capture: a function literal evaluates to a `Function`
carrying the environment reference active at its evaluation; applying it
allocates a fresh frame whose `outer` is that defining environment with the
parameters bound positionally into its store; `Get` searches the frame's own
store first and falls through to the outer chain.  End to end, the spec's
closure program evaluates to the Integer 5. -/
theorem c2_closure_capture :
    (∀ (n : Nat) (ps : Option (List Bytes)) (body : List Stmt) (env : Nat) (st : St),
      evalF (n + 1) (some (.exprN (.funcLit ps body))) env st =
        .ok (some (.funcO st.nextId ps body env), { st with nextId := st.nextId + 1 })) ∧
    (∀ (ps : List Bytes) (args : List V) (fenv : Nat) (st : St),
      ps.length ≤ args.length →
      extendFunctionEnv (some ps) args fenv st =
        .ok (st.frames.length,
          { st with frames := st.frames ++ [⟨paramBindings ps args, some fenv⟩] })) ∧
    (∀ (k : Nat) (st : St) (ref : Nat) (name : Bytes) (fr : Frame) (v : V),
      st.frames.get? ref = some fr →
      lookupStore name fr.store = some v →
      envGetAux (k + 1) st ref name = some v) ∧
    (∀ (k : Nat) (st : St) (ref : Nat) (name : Bytes) (fr : Frame) (outer : Nat),
      st.frames.get? ref = some fr →
      lookupStore name fr.store = none →
      fr.outer = some outer →
      envGetAux (k + 1) st ref name = envGetAux k st outer name) ∧
    (resValue (runSrc 40 "let c = fn(x)\x7b fn(y)\x7b x + y \x7d \x7d; let a = c(2); a(3)") =
      some (some (.intO 5))) := by
  refine ⟨fun n ps body env st => rfl, ?_, ?_, ?_, rfl⟩
  · intro ps args fenv st h
    simp only [extendFunctionEnv, newEnclosedEnvironment, Option.getD]
    rw [extendParamsAux_spec ps args 0
      { st with frames := st.frames ++ [⟨[], some fenv⟩] } st.frames [] fenv
      (by omega) rfl]
    simp [paramBindings]
  · intro k st ref name fr v h1 h2
    rw [List.get?_eq_getElem?] at h1
    simp [envGetAux, h1, h2]
  · intro k st ref name fr outer h1 h2 h3
    rw [List.get?_eq_getElem?] at h1
    simp [envGetAux, h1, h2, h3]

/-- C2 witness: the binding and lookup conjuncts at a concrete two-frame
state (frame 1 binds `x`, its outer frame 0 binds `y`). -/
theorem c2_closure_capture_witness :
    extendFunctionEnv (some [str "x"]) [some (.intO 2)] 0 st0 =
      .ok (1, { st0 with frames := st0.frames ++
        [⟨[(str "x", some (.intO 2))], some 0⟩] }) ∧
    envGetAux 2
      { frames := [⟨[(str "y", some (.intO 7))], none⟩,
                   ⟨[(str "x", some (.intO 2))], some 0⟩],
        nextId := 0, clock := [] } 1 (str "x") = some (some (.intO 2)) ∧
    envGetAux 2
      { frames := [⟨[(str "y", some (.intO 7))], none⟩,
                   ⟨[(str "x", some (.intO 2))], some 0⟩],
        nextId := 0, clock := [] } 1 (str "y") =
      envGetAux 1
        { frames := [⟨[(str "y", some (.intO 7))], none⟩,
                     ⟨[(str "x", some (.intO 2))], some 0⟩],
          nextId := 0, clock := [] } 0 (str "y") := by
  refine ⟨?_, ?_, ?_⟩
  · exact c2_closure_capture.2.1 [str "x"] [some (.intO 2)] 0 st0 (by decide)
  · exact c2_closure_capture.2.2.1 1 _ 1 (str "x") ⟨[(str "x", some (.intO 2))], some 0⟩
      (some (.intO 2)) rfl rfl
  · exact c2_closure_capture.2.2.2.1 1 _ 1 (str "y") ⟨[(str "x", some (.intO 2))], some 0⟩
      0 rfl rfl rfl

/-- C1 witness: the propagation conjuncts at concrete statements. -/
theorem c1_propagation_witness :
    evalF 3 (some (.prog [.retS (some (.intLit 3)), .exprS (some (.intLit 9))])) 0 st0 =
      .ok (some (.intO 3), st0) ∧
    evalF 4 (some (.prog [.exprS (some (.prefixE (str "-") (some (.boolLit true)))),
        .exprS (some (.intLit 9))])) 0 st0 =
      .ok (some (.errorO "unknon operator: -BOOLEAN"), st0) ∧
    evalF 3 (some (.prog [.exprS (some (.intLit 1)), .exprS (some (.intLit 9))])) 0 st0 =
      evalProgramGo (evalF 2) [.exprS (some (.intLit 9))] 0 st0 ∧
    evalF 3 (some (.blockN [.retS (some (.intLit 3)), .exprS (some (.intLit 9))])) 0 st0 =
      .ok (some (.returnO (some (.intO 3))), st0) ∧
    evalF 3 (some (.blockN [.exprS (some (.intLit 1))])) 0 st0 =
      .ok (some (.intO 1), st0) ∧
    evalF 4 (some (.prog [.retS (some (.intLit 3))])) 0 st0 =
      evalF 2 (some (.exprN (.intLit 3))) 0 st0 := by
  refine ⟨?_, ?_, ?_, ?_, ?_, c1_propagation.2.2.2.2.2.1 2 (.intLit 3) 0 st0⟩
  · exact c1_propagation.1 2 _ _ 0 st0 st0 (some (.intO 3)) rfl
  · exact c1_propagation.2.1 3 _ _ 0 st0 st0 "unknon operator: -BOOLEAN" rfl
  · exact c1_propagation.2.2.1 2 _ _ 0 st0 st0 (some (.intO 1)) rfl rfl rfl
  · exact c1_propagation.2.2.2.1 2 _ _ 0 st0 st0 (.returnO (some (.intO 3))) rfl
      (Or.inl rfl)
  · exact c1_propagation.2.2.2.2.1 2 _ [] 0 st0 st0 (.intO 1) rfl (by decide) (by decide)

/-- FNV-1a values stay below 2^64. -/
theorem fnv1a_lt (s : Bytes) : fnv1a s < 2 ^ 64 := by
  have h : ∀ (t : Bytes) (h0 : Nat), h0 < 2 ^ 64 → t.foldl fnv1aStep h0 < 2 ^ 64 := by
    intro t
    induction t with
    | nil => intro h0 hh; simpa using hh
    | cons b rest ih =>
      intro h0 hh
      simp only [List.foldl_cons]
      exact ih _ (Nat.mod_lt _ (by norm_num))
  exact h s _ (by norm_num)

/-- C8 counterexample: the claim's "if and only if" fails in the converse
direction.  `String.HashKey` compresses arbitrarily long byte strings into a
64-bit FNV-1a value (plus the fixed STRING type tag), so by pigeonhole there
exist two strings with different bytes but equal `HashKey`; hence equal
`HashKey`s do NOT imply equal bytes. -/
theorem c8_hashkey_iff_refuted :
    ¬ (∀ s1 s2 : Bytes, s1 = s2 ↔ hashKeyOf (.stringO s1) = hashKeyOf (.stringO s2)) := by
  intro h
  have hf : Function.Injective (fun s : Bytes => (⟨fnv1a s, fnv1a_lt s⟩ : Fin (2 ^ 64))) := by
    intro s1 s2 he
    have : fnv1a s1 = fnv1a s2 := by simpa [Fin.ext_iff] using he
    exact (h s1 s2).mpr (by simp [hashKeyOf, this])
  obtain ⟨s1, s2, hne, heq⟩ :=
    Finite.exists_ne_map_eq_of_infinite
      (fun s : Bytes => (⟨fnv1a s, fnv1a_lt s⟩ : Fin (2 ^ 64)))
  exact hne (hf heq)

/-- C8 (amended).  HashKey discipline: equal bytes give equal string
HashKeys (the forward direction); hashable values of distinct types never
collide because the HashKey carries the value's own type tag; but the
claim's converse direction fails: by pigeonhole over the 64-bit FNV-1a
range, two strings with different bytes can share a HashKey. -/
theorem c8_hashkey_discipline :
    (∀ s1 s2 : Bytes, s1 = s2 →
      hashKeyOf (.stringO s1) = hashKeyOf (.stringO s2)) ∧
    (∀ (o : Obj) (k : HashKey), hashKeyOf o = some k → k.type = typeOf o) ∧
    (∀ (o1 o2 : Obj) (k1 k2 : HashKey),
      hashKeyOf o1 = some k1 → hashKeyOf o2 = some k2 →
      typeOf o1 ≠ typeOf o2 → k1 ≠ k2) ∧
    (∃ s1 s2 : Bytes, s1 ≠ s2 ∧
      hashKeyOf (.stringO s1) = hashKeyOf (.stringO s2)) := by
  have htag : ∀ (o : Obj) (k : HashKey), hashKeyOf o = some k → k.type = typeOf o := by
    intro o k hk
    cases o <;> simp [hashKeyOf] at hk <;> simp [← hk, typeOf]
  refine ⟨fun s1 s2 h => by rw [h], htag, ?_, ?_⟩
  · intro o1 o2 k1 k2 h1 h2 hne heq
    exact hne ((htag o1 k1 h1).symm.trans (heq ▸ htag o2 k2 h2))
  · by_contra hno
    push_neg at hno
    have hf : Function.Injective (fun s : Bytes => (⟨fnv1a s, fnv1a_lt s⟩ : Fin (2 ^ 64))) := by
      intro s1 s2 he
      have hv : fnv1a s1 = fnv1a s2 := by simpa [Fin.ext_iff] using he
      by_contra hne
      exact hno s1 s2 hne (by simp [hashKeyOf, hv])
    obtain ⟨s1, s2, hne, heq⟩ :=
      Finite.exists_ne_map_eq_of_infinite
        (fun s : Bytes => (⟨fnv1a s, fnv1a_lt s⟩ : Fin (2 ^ 64)))
    exact hne (hf heq)

/-- C8 witness: the type-tag conjuncts at Integer 1 versus Boolean true
(numerically equal 64-bit payloads, distinct HashKeys). -/
theorem c8_hashkey_discipline_witness :
    hashKeyOf (.stringO (str "abc")) = hashKeyOf (.stringO (str "abc")) ∧
    (⟨.integerT, 1⟩ : HashKey).type = typeOf (.intO 1) ∧
    (⟨.integerT, 1⟩ : HashKey) ≠ (⟨.booleanT, 1⟩ : HashKey) := by
  refine ⟨c8_hashkey_discipline.1 (str "abc") (str "abc") rfl, ?_, ?_⟩
  · exact c8_hashkey_discipline.2.1 (.intO 1) ⟨.integerT, 1⟩ rfl
  · exact c8_hashkey_discipline.2.2.1 (.intO 1) (.boolO true) ⟨.integerT, 1⟩
      ⟨.booleanT, 1⟩ rfl rfl (by decide)

/-- Fuel-exhaustion discriminator. -/
def Res.isOut {α : Type} : Res α → Bool
  | .out => true
  | _ => false

theorem Res.isOut_true {α : Type} {r : Res α} (h : r.isOut = true) : r = .out := by
  cases r <;> simp [Res.isOut] at h ⊢

/-- `skipWhitespace` is the identity (at any fuel) off whitespace. -/
theorem skipWS_not_ws (n : Nat) (l : LexState) (h : isWS l.ch = false) :
    skipWS n l = .ok l := by
  cases n <;> simp [skipWS, natIter, skipWSGo, h]

/-- A parser state caught in the let/return semicolon skip at end of input:
current and peek tokens are `EOF` and the lexer is past its input. -/
def ParserStuck (p : PState) : Prop :=
  p.cur.type = .EOF ∧ p.peek = ⟨.EOF, []⟩ ∧
  p.l.input.length ≤ p.l.readPosition ∧ p.l.ch = 0

/-- Past the end of input the lexer emits `EOF` forever (without consuming
loop fuel), and the state stays stuck. -/
theorem nextTokenP_stuck (n : Nat) (p : PState) (h : ParserStuck p) :
    nextTokenP n p = .ok ⟨readChar p.l, p.errors, p.peek, ⟨.EOF, []⟩⟩ ∧
    ParserStuck ⟨readChar p.l, p.errors, p.peek, ⟨.EOF, []⟩⟩ := by
  obtain ⟨h1, h2, h3, h4⟩ := h
  constructor
  · have hws : skipWS n p.l = .ok p.l :=
      skipWS_not_ws n p.l (by rw [h4]; decide)
    simp [nextTokenP, nextTokenL, hws, h4]
  · refine ⟨by rw [h2], rfl, ?_, ?_⟩
    · simp only [readChar]
      omega
    · simp only [readChar]
      rw [if_pos h3]

/-- The semicolon-skip loop never terminates from a stuck state: it only
ever exhausts its fuel. -/
theorem skipToSemiF_stuck (n : Nat) : ∀ (p : PState), ParserStuck p →
    skipToSemiF n p = .out := by
  induction n with
  | zero => intro p _; rfl
  | succ m ih =>
    intro p hp
    obtain ⟨h1, h2, h3, h4⟩ := hp
    show skipToSemiB m (parseRecAt m) p = .out
    rw [skipToSemiB, if_neg (by rw [h1]; decide)]
    rw [(nextTokenP_stuck m p ⟨h1, h2, h3, h4⟩).1]
    exact (nextTokenP_stuck m p ⟨h1, h2, h3, h4⟩).2 |> ih _

/-- Past the end of its input, `readString` loops forever (`readChar` yields
the 0 byte, never a closing quote). -/
theorem readStrChars_past_end (n : Nat) : ∀ (l : LexState),
    l.input.length ≤ l.readPosition → readStrChars n l = .out := by
  induction n with
  | zero => intro l _; rfl
  | succ m ih =>
    intro l h
    have hch : (readChar l).ch = 0 := by
      simp only [readChar]
      rw [if_pos h]
    show readStrGo (readStrChars m) l = .out
    simp only [readStrGo, hch]
    rw [if_neg (by decide)]
    exact ih (readChar l) (by simp only [readChar]; omega)

/-- The failing input `return 1` (no trailing semicolon), as bytes. -/
def retInput : Bytes :=
  [⟨114, by norm_num⟩, ⟨101, by norm_num⟩, ⟨116, by norm_num⟩, ⟨117, by norm_num⟩,
   ⟨114, by norm_num⟩, ⟨110, by norm_num⟩, ⟨32, by norm_num⟩, ⟨49, by norm_num⟩]

/-- Parser state after `parser.New` on `return 1`: the whole input is lexed,
`cur`/`peek` hold the `return` keyword and the integer literal. -/
def retP0 : PState :=
  { l := { input := retInput, position := 8, readPosition := 9, ch := 0 },
    errors := [], cur := ⟨.RETURN, [114, 101, 116, 117, 114, 110]⟩,
    peek := ⟨.INT, [49]⟩ }

/-- Parser state at the second iteration of the semicolon-skip loop on
`return 1`: both tokens are `EOF` and the lexer is past its input. -/
def retP2 : PState :=
  { l := { input := retInput, position := 10, readPosition := 11, ch := 0 },
    errors := [], cur := ⟨.EOF, []⟩, peek := ⟨.EOF, []⟩ }

/-- On `return 1` the return-statement parser runs into the semicolon-skip
loop in a stuck state and only ever exhausts fuel, at every fuel. -/
theorem parseReturn_retInput_out (k : Nat) :
    parseReturnStatementF k retP0 = .out := by
  match k with
  | 0 => rfl
  | 1 => rfl
  | 2 => rfl
  | j + 3 =>
    have h : parseReturnStatementF (j + 3) retP0 =
        Res.bind (skipToSemiF (j + 1) retP2)
          (fun p => Res.ok (some (Stmt.retS (some (Expr.intLit 1))), p)) := rfl
    rw [h, skipToSemiF_stuck (j + 1) retP2 ⟨rfl, rfl, by decide, rfl⟩]
    rfl

/-- Statement dispatch on `return 1` (the current token is `return`). -/
theorem parseStatement_retInput_out (k : Nat) :
    parseStatementF k retP0 = .out := by
  match k with
  | 0 => rfl
  | j + 1 => exact parseReturn_retInput_out j

/-- The `ParseProgram` loop on `return 1` diverges at every fuel. -/
theorem parseProgramLoop_retInput_out (k : Nat) :
    parseProgramLoopF k retP0 [] = .out := by
  match k with
  | 0 => rfl
  | j + 1 =>
    show parseProgramLoopB j (parseRecAt j) retP0 [] = .out
    rw [parseProgramLoopB, if_neg (by decide)]
    rw [show (parseRecAt j).stmt retP0 = Res.out from parseStatement_retInput_out j]
    rfl

/-- The unterminated-string input `"a`, as bytes. -/
def strInput : Bytes := [⟨34, by norm_num⟩, ⟨97, by norm_num⟩]

/-- On `"a` the string loop never finds a closing quote, at every fuel. -/
theorem readStr_strInput_out (k : Nat) :
    readStrChars k (lexNew strInput) = .out := by
  match k with
  | 0 => rfl
  | 1 => rfl
  | j + 2 =>
    have h : readStrChars (j + 2) (lexNew strInput) =
        readStrChars j { input := strInput, position := 2, readPosition := 3, ch := 0 } := rfl
    rw [h]
    exact readStrChars_past_end j _ (by decide)

/-- `NextToken` on `"a` only ever exhausts fuel. -/
theorem nextTokenL_strInput_out (k : Nat) :
    nextTokenL k (lexNew strInput) = .out := by
  have h := readStr_strInput_out k
  have hws := skipWS_not_ws k (⟨strInput, 0, 1, (34 : Byte)⟩ : LexState) (by decide)
  rw [show lexNew strInput = (⟨strInput, 0, 1, (34 : Byte)⟩ : LexState) from rfl] at h ⊢
  rw [nextTokenL, hws]
  simp only [show ((34 : Byte) = 61) = False by simp, show ((34 : Byte) = 43) = False by simp,
    show ((34 : Byte) = 45) = False by simp, show ((34 : Byte) = 33) = False by simp,
    show ((34 : Byte) = 47) = False by simp, show ((34 : Byte) = 42) = False by simp,
    show ((34 : Byte) = 60) = False by simp, show ((34 : Byte) = 62) = False by simp,
    show ((34 : Byte) = 59) = False by simp, show ((34 : Byte) = 44) = False by simp,
    show ((34 : Byte) = 40) = False by simp, show ((34 : Byte) = 41) = False by simp,
    show ((34 : Byte) = 123) = False by simp, show ((34 : Byte) = 125) = False by simp,
    show ((34 : Byte) = 91) = False by simp, show ((34 : Byte) = 93) = False by simp,
    show ((34 : Byte) = 34) = True by simp, if_false, if_true, ite_false, ite_true]
  rw [h]

/-- C5.  Front-end totality FAILS on the two edge cases the claim includes:
on `return 1` (a return statement with no semicolon before end of input) the
let/return consume-until-`;` loop spins on the lexer's endless `EOF` tokens,
and on `"a` (an unterminated string literal) `readString` reads the 0 byte
forever, so `parse_program()` never returns on either input — at every fuel
the embedding yields only the fuel-exhaustion marker, never a `Program`. -/
theorem c5_divergence :
    (∀ n : Nat, frontEndF n retInput = .out) ∧
    (retInput = str "return 1") ∧
    (∀ n : Nat, frontEndF n strInput = .out) ∧
    (strInput = str "\x22a") := by
  refine ⟨?_, by decide, ?_, by decide⟩
  · intro n
    rcases Nat.lt_or_ge n 16 with h | h
    · have hb : ∀ m, m < 16 → (frontEndF m retInput).isOut = true := by decide
      exact Res.isOut_true (hb n h)
    · obtain ⟨m, rfl⟩ : ∃ m, n = m + 16 := ⟨n - 16, by omega⟩
      show Res.bind (parserNewF (m + 16) retInput)
        (fun p => parseProgramLoopF (m + 16) p []) = Res.out
      rw [show parserNewF (m + 16) retInput = .ok retP0 from rfl]
      exact parseProgramLoop_retInput_out (m + 16)
  · intro n
    have h2 : parserNewF n strInput = .out := by
      simp only [parserNewF]
      rw [nextTokenL_strInput_out n]
      rfl
    show Res.bind (parserNewF n strInput)
      (fun p => parseProgramLoopF n p []) = Res.out
    rw [h2]
    rfl

/-- Wrapper: the `parseExpression` infix loop at a fuel. -/
def parseExprLoopF (n : Nat) (prec : Nat) (left : Option Expr) (p : PState) :
    Res (Option Expr × PState) :=
  (parseRecAt n).exprLoop prec left p

/-- A successful `nextToken` makes the old peek token current. -/
theorem nextTokenP_cur {k : Nat} {p p' : PState}
    (h : nextTokenP k p = .ok p') : p'.cur = p.peek := by
  unfold nextTokenP at h
  rcases hnt : nextTokenL k p.l with _ | _ | tl
  · rw [hnt] at h; exact absurd h (by simp [Res.bind])
  · rw [hnt] at h; exact absurd h (by simp [Res.bind])
  · rw [hnt] at h
    have : Res.ok { l := tl.2, errors := p.errors, cur := p.peek, peek := tl.1 } =
        Res.ok p' := h
    have h2 := Res.ok.inj this
    rw [← h2]

/-- The identifier prefix parselet: an `IDENT` current token becomes an
`Identifier` node and the infix loop starts. -/
theorem parseExpressionF_ident (k prec : Nat) (p : PState) (nm : Bytes)
    (h : p.cur = ⟨.IDENT, nm⟩) :
    parseExpressionF (k + 1) prec p = parseExprLoopF k prec (some (.ident nm)) p := by
  show parseExpressionB (parseRecAt k) prec p = _
  rw [parseExpressionB, h]
  rfl

/-- The infix loop stops as soon as the peek token's precedence does not
exceed the argument precedence. -/
theorem parseExprLoopF_stop (k prec : Nat) (left : Option Expr) (p : PState)
    (h : precOf p.peek.type ≤ prec) :
    parseExprLoopF (k + 1) prec left p = .ok (left, p) := by
  show parseExprLoopB k (parseRecAt k) prec left p = _
  rw [parseExprLoopB, if_neg (by simp [peekPrecedence]; omega)]

/-- One pass of the infix loop across a `+` operator: advance, then the
right operand is parsed at precedence `SUM - 1 = 3`, and the loop continues
on the combined expression. -/
theorem parseExprLoopF_plus (k prec : Nat) (left : Option Expr)
    (p p' p'' : PState)
    (hpk : p.peek = ⟨.PLUS, str "+"⟩)
    (hprec : prec < 4)
    (hn1 : ∀ j, nextTokenP (j + 2) p = .ok p')
    (hc : p'.cur = ⟨.PLUS, str "+"⟩)
    (hn2 : ∀ j, nextTokenP (j + 2) p' = .ok p'') :
    parseExprLoopF (k + 5) prec left p =
      Res.bind
        (Res.bind (parseExpressionF (k + 2) 3 p'')
          (fun rp => Res.ok (some (.infixE (str "+") left rp.1), rp.2)))
        (fun lp => parseExprLoopF (k + 4) prec lp.1 lp.2) := by
  show parseExprLoopB (k + 4) (parseRecAt (k + 4)) prec left p = _
  rw [parseExprLoopB,
    if_pos (show p.peek.type ≠ .SEMICOLON ∧ prec < peekPrecedence p from
      ⟨by rw [hpk]; simp, by simp [peekPrecedence, hpk, precOf]; omega⟩),
    if_pos (show infixRegistered p.peek.type = true by
      rw [hpk]; rfl)]
  have h1 : nextTokenP (k + 4) p = .ok p' := hn1 (k + 2)
  rw [h1]
  have hd : (parseRecAt (k + 4)).infixDispatch left p' =
      parseInfixExpressionB (k + 2) (parseRecAt (k + 2)) left p' := by
    show parseInfixDispatchB (parseRecAt (k + 3)) left p' = _
    rw [parseInfixDispatchB, hc]
    rfl
  rw [Res.mbind_ok]
  rw [hd, parseInfixExpressionB, hc]
  have h2 : nextTokenP (k + 2) p' = .ok p'' := hn2 k
  rw [h2]
  simp only [Res.mbind_ok, curPrecedence, hc]
  rfl

/-- Projection: the statement list of a successful front-end run. -/
def progOf : Res (List Stmt × PState) → Option (List Stmt)
  | .ok sp => some sp.1
  | _ => none

/-- **C3.** The `+` right-associativity quirk.  General mechanism: for every
parser state whose token stream is `IDENT a`, `+`, `IDENT b`, `+`, `IDENT c`
followed by a lowest-precedence token, the expression parser produces the
right-nested tree `a + (b + c)` (because `parseInfixExpression` parses the
right operand of `+` at the operator's precedence minus one).  In addition,
the concrete source `1 + 2 + 3` parses as `1 + (2 + 3)` while `1 - 2 - 3`
parses left-nested as `(1 - 2) - 3`, showing the rule is special to `+`. -/
theorem c3_plus_right_assoc (a b c : Bytes) (p p1 p2 p3 p4 : PState)
    (ha : p.cur = ⟨.IDENT, a⟩)
    (hpk : p.peek = ⟨.PLUS, str "+"⟩)
    (h1 : ∀ j, nextTokenP (j + 2) p = .ok p1)
    (h1p : p1.peek = ⟨.IDENT, b⟩)
    (h2 : ∀ j, nextTokenP (j + 2) p1 = .ok p2)
    (h2p : p2.peek = ⟨.PLUS, str "+"⟩)
    (h3 : ∀ j, nextTokenP (j + 2) p2 = .ok p3)
    (h3p : p3.peek = ⟨.IDENT, c⟩)
    (h4 : ∀ j, nextTokenP (j + 2) p3 = .ok p4)
    (hend : precOf p4.peek.type = 1) :
    (∀ n, parseExpressionF (n + 10) 1 p =
      .ok (some (.infixE (str "+") (some (.ident a))
        (some (.infixE (str "+") (some (.ident b)) (some (.ident c))))), p4)) ∧
    progOf (frontEndF 40 (str "1 + 2 + 3")) =
      some [.exprS (some (.infixE (str "+") (some (.intLit 1))
        (some (.infixE (str "+") (some (.intLit 2)) (some (.intLit 3))))))] ∧
    progOf (frontEndF 40 (str "1 - 2 - 3")) =
      some [.exprS (some (.infixE (str "-")
        (some (.infixE (str "-") (some (.intLit 1)) (some (.intLit 2))))
        (some (.intLit 3))))] := by
  have hc1 : p1.cur = ⟨.PLUS, str "+"⟩ := (nextTokenP_cur (h1 0)).trans hpk
  have hc2 : p2.cur = ⟨.IDENT, b⟩ := (nextTokenP_cur (h2 0)).trans h1p
  have hc3 : p3.cur = ⟨.PLUS, str "+"⟩ := (nextTokenP_cur (h3 0)).trans h2p
  have hc4 : p4.cur = ⟨.IDENT, c⟩ := (nextTokenP_cur (h4 0)).trans h3p
  refine ⟨?_, rfl, rfl⟩
  intro n
  rw [show (n + 10 : Nat) = (n + 9) + 1 from rfl,
    parseExpressionF_ident (n + 9) 1 p a ha,
    show (n + 9 : Nat) = (n + 4) + 5 from rfl,
    parseExprLoopF_plus (n + 4) 1 (some (.ident a)) p p1 p2 hpk (by omega) h1 hc1 h2,
    show (n + 4 + 4 : Nat) = n + 8 from rfl,
    show (n + 4 + 2 : Nat) = (n + 5) + 1 from rfl,
    parseExpressionF_ident (n + 5) 3 p2 b hc2,
    parseExprLoopF_plus n 3 (some (.ident b)) p2 p3 p4 h2p (by omega) h3 hc3 h4,
    show (n + 2 : Nat) = (n + 1) + 1 from rfl,
    parseExpressionF_ident (n + 1) 3 p4 c hc4,
    parseExprLoopF_stop n 3 (some (.ident c)) p4 (by rw [hend]; omega)]
  simp only [Res.mbind_ok, Res.bind_ok]
  rw [show (n + 4 : Nat) = (n + 3) + 1 from rfl,
    parseExprLoopF_stop (n + 3) 3 _ p4 (by rw [hend]; omega)]
  simp only [Res.mbind_ok, Res.bind_ok]
  exact parseExprLoopF_stop (n + 7) 1
    (some (.infixE (str "+") (some (.ident a))
      (some (.infixE (str "+") (some (.ident b)) (some (.ident c)))))) p4
    (le_of_eq hend)

/-- The parser states reached while parsing `a + b + c`, used to witness the
hypotheses of the C3 theorem. -/
def c3p0 : PState := ⟨⟨str "a + b + c", 3, 4, 32⟩, [], ⟨.IDENT, str "a"⟩, ⟨.PLUS, str "+"⟩⟩

def c3p1 : PState := ⟨⟨str "a + b + c", 5, 6, 32⟩, [], ⟨.PLUS, str "+"⟩, ⟨.IDENT, str "b"⟩⟩

def c3p2 : PState := ⟨⟨str "a + b + c", 7, 8, 32⟩, [], ⟨.IDENT, str "b"⟩, ⟨.PLUS, str "+"⟩⟩

def c3p3 : PState := ⟨⟨str "a + b + c", 9, 10, 0⟩, [], ⟨.PLUS, str "+"⟩, ⟨.IDENT, str "c"⟩⟩

def c3p4 : PState := ⟨⟨str "a + b + c", 10, 11, 0⟩, [], ⟨.IDENT, str "c"⟩, ⟨.EOF, []⟩⟩

/-- Witness for C3: the hypotheses hold at the concrete states reached while
parsing `a + b + c`, and the parse is the right-nested `a + (b + c)`. -/
theorem c3_plus_right_assoc_witness :
    parseExpressionF 10 1 c3p0 =
      .ok (some (.infixE (str "+") (some (.ident (str "a")))
        (some (.infixE (str "+") (some (.ident (str "b")))
          (some (.ident (str "c")))))), c3p4) :=
  (c3_plus_right_assoc (str "a") (str "b") (str "c") c3p0 c3p1 c3p2 c3p3 c3p4
    rfl rfl (fun _ => rfl) rfl (fun _ => rfl) rfl (fun _ => rfl) rfl
    (fun _ => rfl) rfl).1 0
